import Mathlib

/-
Verification development for the hardy-har HAR-generation core.

The definitions below are a shallow embedding of the repository's
event-correlation and entry-synthesis engine:
  - src/lib/headers.ts                (header record utilities)
  - src/lib/cookies.ts / unnamed/part_006 (cookie parsing pipeline; the
    cookie-string parser itself is an external collaborator per the spec
    and is modelled at its interface)
  - src/unnamed/part_002              (TimeLord)
  - src/lib/HarEntryBuilder.ts        (both class revisions: the current
    TimeLord-aware revision, and the earlier chrome-har-parity revision
    embedded under the ChromeHarRev namespace)
  - src/src/HarEntriesBuilder.ts      (event routing, redirect splitting,
    finalisation pipeline)

Modelling conventions:
  - JavaScript numbers are modelled as exact integers (Int).  Every
    property at issue concerns ordering, equality and exact
    addition/subtraction of event fields, which real JS numbers preserve.
  - JavaScript objects used as string-keyed records are modelled as
    association lists in object insertion order; assignment updates a
    present key in place and appends an absent key, matching JS semantics.
  - Fallible getters (those that throw on absent data) are modelled in
    the Except String monad, preserving evaluation order and
    short-circuiting of the source.
-/

deriving instance DecidableEq for Except

namespace HardyHar

/- String primitives over the character list, mirroring the JS string
operations the source uses (ASCII-adequate, as header names, URLs and
numerals are). -/

/-- JS toLowerCase. -/
def strToLower (s : String) : String := ⟨s.data.map Char.toLower⟩

/-- JS startsWith. -/
def strStartsWith (s p : String) : Bool := p.data.isPrefixOf s.data

/-- Split a character list at every occurrence of the separator character. -/
def splitCharAux (c : Char) : List Char → List Char → List (List Char)
  | [], acc => [acc.reverse]
  | x :: xs, acc =>
    if x = c then acc.reverse :: splitCharAux c xs []
    else splitCharAux c xs (x :: acc)

/-- JS split with a single-character separator. -/
def strSplitOnChar (c : Char) (s : String) : List String :=
  (splitCharAux c s.data []).map String.mk

/-- JS trimStart. -/
def strTrimLeft (s : String) : String :=
  ⟨s.data.dropWhile Char.isWhitespace⟩

/-- JS trim. -/
def strTrim (s : String) : String :=
  ⟨((s.data.dropWhile Char.isWhitespace).reverse.dropWhile Char.isWhitespace).reverse⟩

/-- Decimal value of a digit run. -/
def digitsToNat (l : List Char) : Nat :=
  l.foldl (fun n c => n * 10 + (c.toNat - 48)) 0

/-- JS record of header names to values, in object insertion order. -/
abbrev HeadersRecord := List (String × String)

/-- JS object assignment r[k] = v: update the key in place if present
(keeping its position), otherwise append it. -/
def recordSet (r : HeadersRecord) (k v : String) : HeadersRecord :=
  if r.any (fun p => p.1 = k) then
    r.map (fun p => if p.1 = k then (k, v) else p)
  else r ++ [(k, v)]

/-- JS object spread of two records: start from a, then assign every entry of b
in order (later entries override on key collision, first occurrence keeps
its position). -/
def recordMerge (a b : HeadersRecord) : HeadersRecord :=
  b.foldl (fun r p => recordSet r p.1 p.2) a

/-- JS parseInt(s, 10): skip leading whitespace, optional sign, then the
longest digit run; NaN (modelled as none) when no digits are found. -/
def jsParseInt (s : String) : Option Int :=
  let chars := s.data.dropWhile Char.isWhitespace
  let signAndRest : Int × List Char :=
    match chars with
    | '-' :: cs => (-1, cs)
    | '+' :: cs => (1, cs)
    | cs => (1, cs)
  let digits := signAndRest.2.takeWhile Char.isDigit
  if digits.isEmpty then none
  else some (signAndRest.1 * (digitsToNat digits : Int))

/-- Fail-fast monadic map over Except, modelling a JS loop in which any
iteration may throw. -/
def exceptMap {ε α β : Type} (f : α → Except ε β) : List α → Except ε (List β)
  | [] => .ok []
  | a :: as => do
    let b ← f a
    let bs ← exceptMap f as
    pure (b :: bs)

/-- Fail-fast monadic filter over Except, modelling Array.prototype.filter
with a predicate that may throw. -/
def exceptFilter {ε α : Type} (p : α → Except ε Bool) : List α → Except ε (List α)
  | [] => .ok []
  | a :: as => do
    let keep ← p a
    let rest ← exceptFilter p as
    pure (if keep then a :: rest else rest)

/-- Update the element at position i of a list in place (identity when the
index is out of range); models mutation of an object held in an array. -/
def listModify {α : Type} (l : List α) (i : Nat) (f : α → α) : List α :=
  match l, i with
  | [], _ => []
  | a :: as, 0 => f a :: as
  | a :: as, n + 1 => a :: listModify as n f

/- ---------------------------------------------------------------------
Embedding of src/lib/headers.ts
--------------------------------------------------------------------- -/

/-- HAR header record (name/value pair). -/
structure HarHeader where
  name : String
  value : String
deriving DecidableEq

/-- Embeds sortHarHeadersByName: headers.toSorted((a, b) => a.name.localeCompare(b.name)).
The host localeCompare collation is modelled as the string order; by the
time it is applied all names have been lowercased. -/
def sortHarHeadersByName (headers : List HarHeader) : List HarHeader :=
  headers.insertionSort (fun a b => a.name.data ≤ b.name.data)

/-- Embeds headersRecordToArrayOfHarHeaders of src/lib/headers.ts: lowercase
every name into a fresh record (later assignments overwrite earlier ones on
collision), convert to HarHeader pairs, and sort by name. -/
def headersRecordToArrayOfHarHeaders (headers : HeadersRecord) : List HarHeader :=
  let headersRecordWithLowercaseKeys : HeadersRecord :=
    headers.foldl (fun r p => recordSet r (strToLower p.1) p.2) []
  let harHeaders := headersRecordWithLowercaseKeys.map (fun p => HarHeader.mk p.1 p.2)
  sortHarHeadersByName harHeaders

/-- Embeds getHeaderValue of src/lib/headers.ts: first case-insensitive match
among the record's entries. -/
def getHeaderValue (headers : HeadersRecord) (headerToFind : String) : Option String :=
  (headers.find? (fun p => strToLower p.1 = strToLower headerToFind)).map (·.2)

/-- Embeds calculateRequestHeaderSize of src/lib/headers.ts: length of the
reconstructed request head block. -/
def calculateRequestHeaderSize (method url httpVersion : String)
    (headers : HeadersRecord) : Int :=
  (method ++ " " ++ url ++ " " ++ httpVersion ++ "\r\n" ++
    String.join (headers.map (fun p => p.1 ++ ": " ++ p.2 ++ "\r\n")) ++
    "\r\n").length

/-- Embeds calculateResponseHeaderSize of src/lib/headers.ts; a missing
protocol renders as the JS template-literal text for undefined. -/
def calculateResponseHeaderSize (protocol : Option String) (status : Int)
    (statusText : String) (headers : HeadersRecord) : Int :=
  ((protocol.getD "undefined") ++ " " ++ toString status ++ " " ++ statusText ++ "\r\n" ++
    String.join (headers.map (fun p => p.1 ++ ": " ++ p.2 ++ "\r\n")) ++
    "\r\n").length

/- ---------------------------------------------------------------------
Embedding of the cookie pipeline (src/lib/cookies.ts / unnamed/part_006).
The cookie-string parser is an external collaborator per the spec
(parseCookie(string) -> Cookie | None); it is modelled at that interface.
--------------------------------------------------------------------- -/

/-- HAR cookie record (the fields the claims inspect). -/
structure HarCookie where
  name : String
  value : String
deriving DecidableEq

/-- Chrome DevTools Protocol cookie record. -/
structure NetworkCookie where
  name : String
  value : String
deriving DecidableEq

/-- Models the external cookie-string parser at its interface: take the
text before the first attribute separator and split it into name=value;
none when no name=value shape is present. -/
def parseCookie (cookieString : String) : Option HarCookie :=
  let firstPart := strTrim ((strSplitOnChar ';' cookieString).headD "")
  match strSplitOnChar '=' firstPart with
  | [] => none
  | [_] => none
  | name :: rest =>
    let name := strTrim name
    if name.data.isEmpty then none
    else some ⟨name, String.intercalate "=" rest⟩

/-- Embeds parseCookiesSeparatedBy: split the header on the delimiter, parse
each piece, and keep the successfully parsed cookies. -/
def parseCookiesSeparatedBy (delim : Char) (header : String) : List HarCookie :=
  ((strSplitOnChar delim header).map parseCookie).filterMap id

/-- Embeds parseRequestCookies (Cookie header entries separated by semicolons). -/
def parseRequestCookies : String → List HarCookie :=
  parseCookiesSeparatedBy ';'

/-- Embeds parseResponseCookies (Set-Cookie entries separated by newlines). -/
def parseResponseCookies : String → List HarCookie :=
  parseCookiesSeparatedBy '\n'

/-- Embeds networkCookieToHarFormatCookie restricted to the fields the
claims inspect. -/
def networkCookieToHarFormatCookie (c : NetworkCookie) : HarCookie :=
  ⟨c.name, c.value⟩

/- ---------------------------------------------------------------------
Embedding of the TimeLord (src/unnamed/part_002).
--------------------------------------------------------------------- -/

/-- Models the JS constant Number.MAX_VALUE used as a sentinel: the exact
integer value of the largest finite double. -/
def jsNumberMaxValue : Int := 179769313486231570814527423731704356798070567525844996598917476803157260780028538760589558632766878171540458953514382464234321326889464182768467546703537516986049910576551282076245490090389328944075868508455133942304583236903222948165808559332123348274797826204144723168738177180919299881250404026184124858368

/-- Embeds the TimeLord class state. Number.MIN_VALUE (the smallest
positive double, roughly zero) is modelled as 0; it initialises only the
skew-report tracking field. -/
structure TimeLord where
  earliestTimestamp : Int := jsNumberMaxValue
  earliestWallTimeMinusTimestamp : Int := jsNumberMaxValue
  largestWallTimeMinusTimestamp : Int := 0
  smallestWallTimeMinusTimestamp : Int := jsNumberMaxValue
deriving DecidableEq

namespace TimeLord

/-- Embeds addTimestampWallTimePair: anchor the offset at the smallest
observed timestamp and track the offset range for the skew report. -/
def addTimestampWallTimePair (tl : TimeLord) (p : Int × Int) : TimeLord :=
  let timestamp := p.1
  let wallTime := p.2
  let wallTimeMinusTimestamp := wallTime - timestamp
  let tl :=
    if timestamp < tl.earliestTimestamp then
      { tl with earliestTimestamp := timestamp,
                earliestWallTimeMinusTimestamp := wallTimeMinusTimestamp }
    else tl
  let tl :=
    if wallTimeMinusTimestamp > tl.largestWallTimeMinusTimestamp then
      { tl with largestWallTimeMinusTimestamp := wallTimeMinusTimestamp }
    else tl
  if wallTimeMinusTimestamp < tl.smallestWallTimeMinusTimestamp then
    { tl with smallestWallTimeMinusTimestamp := wallTimeMinusTimestamp }
  else tl

/-- Embeds getApproximateWallTimeInSecondsFromUnixEpochFromMonotonicallyIncreasingTimestamp. -/
def getApproximateWallTimeInSecondsFromUnixEpochFromMonotonicallyIncreasingTimestamp
    (tl : TimeLord) (timestamp : Int) : Int :=
  tl.earliestWallTimeMinusTimestamp + timestamp

/-- A TimeLord state reached by delivering a sequence of record calls to a
fresh instance. -/
def ofPairs (pairs : List (Int × Int)) : TimeLord :=
  pairs.foldl addTimestampWallTimePair {}

end TimeLord

/- ---------------------------------------------------------------------
Event payload types (Chrome DevTools Protocol shapes, restricted to fields
the embedded code reads).
--------------------------------------------------------------------- -/

/-- Payload of the response-body meta event and of bodies embedded in other
events. -/
structure GetResponseBodyResponse where
  body : String
  base64Encoded : Bool := false
deriving DecidableEq

/-- DevTools ResourceTiming (fields read by the embedded code). -/
structure ResourceTiming where
  requestTime : Int
  pushStart : Int := 0
deriving DecidableEq

/-- DevTools Network.Response (fields read by the embedded code). -/
structure NetworkResponse where
  status : Int
  statusText : String := ""
  headers : HeadersRecord := []
  headersText : Option String := none
  requestHeaders : Option HeadersRecord := none
  requestHeadersText : Option String := none
  protocol : Option String := none
  fromDiskCache : Option Bool := none
  fromEarlyHints : Option Bool := none
  encodedDataLength : Int := 0
  timing : Option ResourceTiming := none
  mimeType : String := ""
deriving DecidableEq

/-- DevTools Network.Request (fields read by the embedded code). -/
structure NetworkRequest where
  url : String
  urlFragment : Option String := none
  method : String := "GET"
  headers : HeadersRecord := []
  postData : Option String := none
deriving DecidableEq

/-- Network.requestWillBeSent payload with the redirectResponse stripped off
(the event correlator extracts it before storing the event). -/
structure RequestWillBeSentEvent where
  requestId : String
  request : NetworkRequest
  timestamp : Int
  wallTime : Int
  frameId : Option String := none
deriving DecidableEq

/-- Network.responseReceived payload. -/
structure ResponseReceivedEvent where
  requestId : String
  response : NetworkResponse
deriving DecidableEq

/-- An associated cookie carried by the request extra-info event. -/
structure AssociatedCookie where
  cookie : NetworkCookie
  blockedReasons : List String := []
deriving DecidableEq

/-- Network.requestWillBeSentExtraInfo payload. -/
structure RequestWillBeSentExtraInfoEvent where
  requestId : String
  headers : HeadersRecord := []
  associatedCookies : List AssociatedCookie := []
deriving DecidableEq

/-- A blocked set-cookie record carried by the response extra-info event. -/
structure BlockedSetCookieWithReason where
  blockedReasons : List String := []
  cookieLine : String := ""
  cookie : Option NetworkCookie := none
deriving DecidableEq

/-- Network.responseReceivedExtraInfo payload. -/
structure ResponseReceivedExtraInfoEvent where
  requestId : String
  headers : HeadersRecord := []
  headersText : Option String := none
  blockedCookies : List BlockedSetCookieWithReason := []
  statusCode : Option Int := none
deriving DecidableEq

/-- Network.requestServedFromCache payload. -/
structure RequestServedFromCacheEvent where
  requestId : String
deriving DecidableEq

/-- Network.loadingFinished payload. -/
structure LoadingFinishedEvent where
  requestId : String
  timestamp : Int := 0
  encodedDataLength : Int := 0
deriving DecidableEq

/-- Network.loadingFailed payload. -/
structure LoadingFailedEvent where
  requestId : String
  timestamp : Int := 0
  canceled : Option Bool := none
  errorText : String := ""
deriving DecidableEq

/-- Network.dataReceived payload. -/
structure DataReceivedEvent where
  requestId : String
  timestamp : Int := 0
  dataLength : Int := 0
deriving DecidableEq

/-- Network.resourceChangedPriority payload. -/
structure ResourceChangedPriorityEvent where
  requestId : String
  newPriority : String := ""
deriving DecidableEq

/-- Network.webSocketFrameSent / webSocketFrameReceived payload. -/
structure WebSocketFrameEvent where
  requestId : String
  timestamp : Int := 0
  opcode : Int := 1
  payloadData : String := ""
deriving DecidableEq

/-- Direction tag attached to a stored web-socket frame event. -/
inductive WebSocketDirection where
  | send
  | receive
deriving DecidableEq

/-- A stored web-socket frame event with its direction. -/
structure WebSocketDirectionAndEvent where
  type : WebSocketDirection
  event : WebSocketFrameEvent
deriving DecidableEq

/-- Recognised configuration options with their defaults populated. -/
structure PopulatedOptions where
  includeResourcesFromDiskCache : Bool := false
  includeTextFromResponseBody : Bool := false
  mimicChromeHar : Bool := false
deriving DecidableEq

/-- The option defaults of the source. -/
def defaultOptions : PopulatedOptions := {}

/- ---------------------------------------------------------------------
Embedding of the HarEntryBuilder accumulator (src/lib/HarEntryBuilder.ts,
current TimeLord-aware revision) — raw stored events.
--------------------------------------------------------------------- -/

/-- Embeds the HarEntryBuilder accumulator state: one field per stored raw
event, all optional until populated. -/
structure HarEntryBuilder where
  options : PopulatedOptions
  orderArrived : Nat := 0
  priorRedirects : Int := 0
  _requestWillBeSentEvent : Option RequestWillBeSentEvent := none
  redirectResponse : Option NetworkResponse := none
  responseReceivedEvent : Option ResponseReceivedEvent := none
  requestWillBeSentExtraInfoEvent : Option RequestWillBeSentExtraInfoEvent := none
  responseReceivedExtraInfoEvent : Option ResponseReceivedExtraInfoEvent := none
  requestServedFromCacheEvent : Option RequestServedFromCacheEvent := none
  loadingFinishedEvent : Option LoadingFinishedEvent := none
  loadingFailedEvent : Option LoadingFailedEvent := none
  dataReceivedEvents : List DataReceivedEvent := []
  resourceChangedPriorityEvent : Option ResourceChangedPriorityEvent := none
  getResponseBodyResponse : Option GetResponseBodyResponse := none
  webSocketEvents : List WebSocketDirectionAndEvent := []
deriving DecidableEq

namespace HarEntryBuilder

/-- Embeds the requestWillBeSentEvent accessor, which throws when the
initiating event is not set. -/
def requestWillBeSentEvent (b : HarEntryBuilder) : Except String RequestWillBeSentEvent :=
  match b._requestWillBeSentEvent with
  | some e => .ok e
  | none => .error "Attempt to access requestWillBeSentEvent before it is set"

/-- Embeds the protected _response getter: the primary response if any,
else the redirect response; throws when both are present. -/
def _response (b : HarEntryBuilder) : Except String (Option NetworkResponse) :=
  if b.responseReceivedEvent.isSome && b.redirectResponse.isSome then
    .error "Unexpected state with event having two types of responses."
  else
    .ok (match b.responseReceivedEvent with
         | some e => some e.response
         | none => b.redirectResponse)

/-- Embeds the response accessor, which throws when no response is present. -/
def response (b : HarEntryBuilder) : Except String NetworkResponse := do
  match (← _response b) with
  | some r => pure r
  | none => .error "Attempt to access a response even though there was no responseReceivedEvent or requestWillBeSent.redirectResponse event"

/-- Embeds the responseBody getter (the captured body text, when fetched). -/
def responseBody (b : HarEntryBuilder) : Option String :=
  b.getResponseBodyResponse.map (·.body)

/-- Embeds util.isHttp1x: case-insensitive http/1. prefix test (false for a
missing version). -/
def isHttp1x (version : Option String) : Bool :=
  match version with
  | some v => strStartsWith (strToLower v) "http/1."
  | none => false

/-- Embeds the networkResponseHeadersObj getter: extra-info headers when the
extra-info event arrived, else the primary response headers (short-circuiting
the response accessor as the source does). -/
def networkResponseHeadersObj (b : HarEntryBuilder) : Except String HeadersRecord :=
  match b.responseReceivedExtraInfoEvent with
  | some e => .ok e.headers
  | none => do pure (← response b).headers

/-- Embeds the responseHeaders getter. -/
def responseHeaders (b : HarEntryBuilder) : Except String (List HarHeader) := do
  pure (headersRecordToArrayOfHarHeaders (← networkResponseHeadersObj b))

/-- Embeds getResponseHeader: case-insensitive search among the derived
response headers. -/
def getResponseHeader (b : HarEntryBuilder) (caseInsensitiveName : String) :
    Except String (Option HarHeader) := do
  let nameLc := strToLower caseInsensitiveName
  pure ((← responseHeaders b).find? (fun v => strToLower v.name = nameLc))

/-- Embeds the responseBodySize getter of the current revision
(src/lib/HarEntryBuilder.ts lines 176-202): captured body length, else 0 for
no-content status codes, else the parsed Content-Length header, else -1. -/
def responseBodySize (b : HarEntryBuilder) : Except String Int := do
  match responseBody b with
  | some body => pure (body.length : Int)
  | none =>
    let resp ← response b
    let status := resp.status
    if (100 ≤ status ∧ status < 200) ∨ status = 204 ∨ status = 304 then
      pure 0
    else
      let contentLengthValue := (← getResponseHeader b "Content-Length").map (·.value)
      match contentLengthValue.bind jsParseInt with
      | some contentLength => pure contentLength
      | none => pure (-1)

/-- Names of blocked set-cookies carried by the response extra-info event
(a cookie counts as blocked when it has at least one block reason). -/
def blockedSetCookieNames (b : HarEntryBuilder) : List String :=
  (((b.responseReceivedExtraInfoEvent.map (·.blockedCookies)).getD []).filter
      (fun c => c.blockedReasons.length > 0)).map
    (fun c => match c.cookie with
      | some ck => ck.name
      | none => ((parseCookie c.cookieLine).map (·.name)).getD "")

/-- Embeds the responseCookeHeader getter (the Set-Cookie header value; in
legacy mode only the primary response's own headers are searched). -/
def responseCookeHeader (b : HarEntryBuilder) : Except String (Option String) := do
  let respHeaders ← networkResponseHeadersObj b
  if b.options.mimicChromeHar then do
    let resp ← response b
    pure (getHeaderValue resp.headers "Set-Cookie")
  else
    pure (getHeaderValue respHeaders "Set-Cookie")

/-- Embeds the responseCookies getter: parse the Set-Cookie header and drop
blocked cookie names. -/
def responseCookies (b : HarEntryBuilder) : Except String (Option (List HarCookie)) := do
  match (← responseCookeHeader b) with
  | none => pure none
  | some cookieHeader =>
    let parsed := parseResponseCookies cookieHeader
    let blocked := blockedSetCookieNames b
    pure (some (parsed.filter (fun c => ¬ blocked.contains c.name)))

/-- Embeds the locationHeaderValue getter. -/
def locationHeaderValue (b : HarEntryBuilder) : Except String (Option String) := do
  pure (getHeaderValue (← networkResponseHeadersObj b) "Location")

/-- Embeds the requestId getter (legacy mode appends r to redirected entries). -/
def requestId (b : HarEntryBuilder) : Except String String := do
  let suffix := if b.options.mimicChromeHar && b.redirectResponse.isSome then "r" else ""
  pure ((← requestWillBeSentEvent b).requestId ++ suffix)

/-- Embeds the request getter. -/
def request (b : HarEntryBuilder) : Except String NetworkRequest := do
  pure (← requestWillBeSentEvent b).request

/-- Embeds the requestHeaders getter: in the current policy the extra-info
headers, the response's captured request headers and the initiating event's
own headers are merged with later sources overriding earlier ones; the
legacy policy prefers the response's captured request headers outright. -/
def requestHeaders (b : HarEntryBuilder) : Except String HeadersRecord := do
  let extraInfoHeaders := (b.requestWillBeSentExtraInfoEvent.map (·.headers)).getD []
  if b.options.mimicChromeHar then do
    let resp ← response b
    match resp.requestHeaders with
    | some rh => pure rh
    | none =>
      pure (recordMerge extraInfoHeaders (← requestWillBeSentEvent b).request.headers)
  else do
    let resp ← response b
    let req ← request b
    pure (recordMerge (recordMerge extraInfoHeaders (resp.requestHeaders.getD [])) req.headers)

/-- Embeds the requestHarHeaders getter. -/
def requestHarHeaders (b : HarEntryBuilder) : Except String (List HarHeader) := do
  pure (headersRecordToArrayOfHarHeaders (← requestHeaders b))

/-- Embeds the requestCookieHeader getter. -/
def requestCookieHeader (b : HarEntryBuilder) : Except String (Option String) := do
  pure (getHeaderValue (← requestHeaders b) "Cookie")

/-- Embeds the requestCookies getter: header-parsed cookies minus blocked
names, with associated-cookie records superseding header-parsed records of
the same name. -/
def requestCookies (b : HarEntryBuilder) : Except String (List HarCookie) := do
  let blocked := blockedSetCookieNames b
  let cookieHeader ← requestCookieHeader b
  let parsedFromHeader : List HarCookie :=
    match cookieHeader with
    | none => []
    | some h => parseRequestCookies h
  let cookiesFromHeader := parsedFromHeader.filter (fun c => ¬ blocked.contains c.name)
  let associatedCookies :=
    (((b.requestWillBeSentExtraInfoEvent.map (·.associatedCookies)).getD []).filter
        (fun ac => ac.blockedReasons.length = 0)).map
      (fun ac => networkCookieToHarFormatCookie ac.cookie)
  let associatedCookieNames := associatedCookies.map (·.name)
  let keptFromHeader :=
    cookiesFromHeader.filter (fun c => ¬ associatedCookieNames.contains c.name)
  pure (keptFromHeader ++ associatedCookies)

/-- Embeds the isSupportedProtocol getter: http/https always, ws/wss unless
legacy mode is active. -/
def isSupportedProtocol (b : HarEntryBuilder) : Except String Bool := do
  let url := (← request b).url
  pure (strStartsWith url "http:" || strStartsWith url "https:" ||
    ((strStartsWith url "ws:" || strStartsWith url "wss:") && !b.options.mimicChromeHar))

/-- Embeds the wasHttp2Push getter. -/
def wasHttp2Push (b : HarEntryBuilder) : Except String Bool := do
  let resp? ← _response b
  pure (decide (0 < (((resp?.bind (·.timing)).map (·.pushStart)).getD 0)))

/-- Embeds the isValidForInclusionInHarArchive getter: the archive-inclusion
eligibility check (src/lib/HarEntryBuilder.ts lines 53-73). -/
def isValidForInclusionInHarArchive (b : HarEntryBuilder) : Except String Bool := do
  let resp? ← _response b
  let hasNoRequest := b._requestWillBeSentEvent.isNone
  let hasNoResponse := resp?.isNone
  if hasNoRequest || hasNoResponse then
    pure false
  else
    let isCancelled :=
      match b.loadingFailedEvent with
      | some lf => (lf.canceled.getD false) && lf.errorText ≠ "net::ERR_ABORTED"
      | none => false
    if isCancelled then
      pure false
    else do
      if !(← isSupportedProtocol b) then
        pure false
      else if !b.options.includeResourcesFromDiskCache then do
        let resp ← response b
        let isFromCache := b.requestServedFromCacheEvent.isSome ||
          ((resp.fromDiskCache == some true) && !(← wasHttp2Push b) &&
            !(resp.fromEarlyHints.getD false))
        pure !isFromCache
      else
        pure true

/-- Embeds the timestamp getter (the initiating event's monotonic time). -/
def timestamp (b : HarEntryBuilder) : Except String Int := do
  pure (← requestWillBeSentEvent b).timestamp

/-- Monotonic input of the start-time derivation: the expression
this.timing?.requestTime ?? this.timestamp of the source (the timing
getter reads the response, so a missing response faults here as there). -/
def requestStartMonotonicInput (b : HarEntryBuilder) : Except String Int := do
  let resp ← response b
  match resp.timing with
  | some timing => pure timing.requestTime
  | none => timestamp b

/-- Embeds requestStartTimeInSecondsFromUnixEpoch: the timing object's
requestTime when present, else the initiating event's timestamp, converted
to wall time by the TimeLord. -/
def requestStartTimeInSecondsFromUnixEpoch (tl : TimeLord) (b : HarEntryBuilder) :
    Except String Int := do
  let t ← requestStartMonotonicInput b
  pure (tl.getApproximateWallTimeInSecondsFromUnixEpochFromMonotonicallyIncreasingTimestamp t)

/-- Models the external host Date ISO formatting at its interface: an
injective, order-preserving rendering of the numeric instant. -/
def isoDateTimeString (secondsFromUnixEpoch : Int) : String :=
  toString secondsFromUnixEpoch

/-- Embeds the startedDateTime getter. -/
def startedDateTime (tl : TimeLord) (b : HarEntryBuilder) : Except String String := do
  pure (isoDateTimeString (← requestStartTimeInSecondsFromUnixEpoch tl b))

/-- Embeds requestTimeInSeconds (src/lib/HarEntryBuilder.ts lines 502-504),
which throws when the response carries no timing object. -/
def requestTimeInSeconds (b : HarEntryBuilder) : Except String Int := do
  let resp ← response b
  match resp.timing with
  | some timing => pure timing.requestTime
  | none => .error "timing not set"

end HarEntryBuilder

/- ---------------------------------------------------------------------
Models of the external node:url collaborator at its interface (the spec
places URL parsing/formatting out of scope; format inverts parse on the
already-normalised URLs the events carry).
--------------------------------------------------------------------- -/

/-- Parsed-URL token retained by the external URL collaborator model. -/
structure ParsedUrl where
  href : String
deriving DecidableEq

/-- Models urlParser.parse at its interface. -/
def urlParse (s : String) : ParsedUrl := ⟨s⟩

/-- Models urlParser.format at its interface. -/
def urlFormat (p : ParsedUrl) : String := p.href

namespace HarEntryBuilder

/-- Embeds the requestUrl getter: format(parse(url + fragment)). -/
def requestUrl (b : HarEntryBuilder) : Except String String := do
  let req ← request b
  pure (urlFormat (urlParse (req.url ++ (req.urlFragment.getD ""))))

end HarEntryBuilder

/- ---------------------------------------------------------------------
The derived HAR entry record (the fields the claims inspect), and the
entry getter assembling it.
--------------------------------------------------------------------- -/

/-- Derived HAR entry restricted to the fields the claims inspect; each field
is computed by the corresponding embedded getter. -/
structure Entry where
  requestMethod : String
  requestUrl : String
  requestHttpVersion : String
  requestHeaders : List HarHeader
  requestCookies : List HarCookie
  responseStatus : Int
  responseStatusText : String
  responseHeaders : List HarHeader
  responseCookies : List HarCookie
  responseBodySize : Int
  startedDateTime : String
  _requestTime : Int
  _requestId : String
deriving DecidableEq

namespace HarEntryBuilder

/-- Embeds the entry getter: undefined (none) when the builder fails the
inclusion-eligibility check, else the derived entry record; any derivation
fault propagates as an exception. -/
def entry (tl : TimeLord) (b : HarEntryBuilder) : Except String (Option Entry) := do
  if !(← isValidForInclusionInHarArchive b) then
    pure none
  else do
    let resp ← response b
    let req ← request b
    pure (some {
      requestMethod := req.method
      requestUrl := ← requestUrl b
      requestHttpVersion := resp.protocol.getD ""
      requestHeaders := ← requestHarHeaders b
      requestCookies := ← requestCookies b
      responseStatus := ((b.responseReceivedExtraInfoEvent.bind (·.statusCode)).getD resp.status)
      responseStatusText := resp.statusText
      responseHeaders := ← responseHeaders b
      responseCookies := (← responseCookies b).getD []
      responseBodySize := ← responseBodySize b
      startedDateTime := ← startedDateTime tl b
      _requestTime := ← requestTimeInSeconds b
      _requestId := ← requestId b })

end HarEntryBuilder

/- ---------------------------------------------------------------------
Embedding of the earlier chrome-har-parity revision of HarEntryBuilder
(the second class definition in src/lib/HarEntryBuilder.ts, lines 717-1315;
responseBodySize at lines 838-851). Only the getters that differ from the
current revision are re-embedded; shared getters are reused.
--------------------------------------------------------------------- -/

namespace ChromeHarRev

open HarEntryBuilder

/-- Embeds the chrome-har-revision responseHeadersText getter (identical
text to the current revision's). -/
def responseHeadersText (b : HarEntryBuilder) : Except String (Option String) :=
  match b.responseReceivedExtraInfoEvent.bind (·.headersText) with
  | some t => .ok (some t)
  | none => do pure (← response b).headersText

/-- Embeds the chrome-har-revision responseHeadersSize getter: raw header
text length when captured, else a reconstructed size for http/1.x responses
explicitly not from cache or early hints, else -1. -/
def responseHeadersSize (b : HarEntryBuilder) : Except String Int := do
  match (← responseHeadersText b) with
  | some t => pure (t.length : Int)
  | none => do
    let resp ← response b
    if isHttp1x resp.protocol && resp.fromDiskCache == some false &&
        resp.fromEarlyHints == some false then
      pure (calculateResponseHeaderSize resp.protocol resp.status resp.statusText resp.headers)
    else
      pure (-1)

/-- Embeds the chrome-har-revision responseBodySize getter
(src/lib/HarEntryBuilder.ts lines 838-851): outside legacy mode a parseable
content-length header wins; otherwise the body size is the encoded transfer
length minus the response header size (clamped at zero), with -1 when the
header size exceeds the transfer length. -/
def responseBodySize (b : HarEntryBuilder) : Except String Int := do
  let viaContentLength : Option Int ←
    if !b.options.mimicChromeHar then do
      let contentLengthHeaderValue := (← getResponseHeader b "content-length").map (·.value)
      pure (contentLengthHeaderValue.bind jsParseInt)
    else
      pure none
  match viaContentLength with
  | some contentLength => pure contentLength
  | none => do
    let resp ← response b
    let encodedDataLength :=
      (b.loadingFinishedEvent.map (·.encodedDataLength)).getD resp.encodedDataLength
    let responseHeaderSize := max (← responseHeadersSize b) 0
    if responseHeaderSize > encodedDataLength then
      pure (-1)
    else
      pure (encodedDataLength - responseHeaderSize)

end ChromeHarRev

/- ---------------------------------------------------------------------
Embedding of the event correlator (src/src/HarEntriesBuilder.ts).
Builders are owned by the allEntryBuilders list; the requestId and frameId
indexes store positions into that list, modelling the source's shared
object references.
--------------------------------------------------------------------- -/

/-- Typed network event as routed by onNetworkEvent. The embeddedBody field
models a response body structurally attached to the event payload (the
hasGetResponseBodyResponseInResponse check), which the source honours on any
event kind. -/
inductive NetworkEvent where
  | requestWillBeSent (e : RequestWillBeSentEvent) (redirectResponse : Option NetworkResponse)
      (embeddedBody : Option GetResponseBodyResponse)
  | responseReceived (e : ResponseReceivedEvent) (embeddedBody : Option GetResponseBodyResponse)
  | requestWillBeSentExtraInfo (e : RequestWillBeSentExtraInfoEvent)
      (embeddedBody : Option GetResponseBodyResponse)
  | responseReceivedExtraInfo (e : ResponseReceivedExtraInfoEvent)
      (embeddedBody : Option GetResponseBodyResponse)
  | requestServedFromCache (e : RequestServedFromCacheEvent)
      (embeddedBody : Option GetResponseBodyResponse)
  | loadingFinished (e : LoadingFinishedEvent) (embeddedBody : Option GetResponseBodyResponse)
  | loadingFailed (e : LoadingFailedEvent) (embeddedBody : Option GetResponseBodyResponse)
  | dataReceived (e : DataReceivedEvent) (embeddedBody : Option GetResponseBodyResponse)
  | resourceChangedPriority (e : ResourceChangedPriorityEvent)
      (embeddedBody : Option GetResponseBodyResponse)
  | getResponseBodyResponse (requestId : String) (r : GetResponseBodyResponse)
  | webSocketFrameSent (e : WebSocketFrameEvent) (embeddedBody : Option GetResponseBodyResponse)
  | webSocketFrameReceived (e : WebSocketFrameEvent)
      (embeddedBody : Option GetResponseBodyResponse)
deriving DecidableEq

namespace NetworkEvent

/-- Transaction identifier carried by the event payload. -/
def requestId : NetworkEvent → String
  | requestWillBeSent e _ _ => e.requestId
  | responseReceived e _ => e.requestId
  | requestWillBeSentExtraInfo e _ => e.requestId
  | responseReceivedExtraInfo e _ => e.requestId
  | requestServedFromCache e _ => e.requestId
  | loadingFinished e _ => e.requestId
  | loadingFailed e _ => e.requestId
  | dataReceived e _ => e.requestId
  | resourceChangedPriority e _ => e.requestId
  | getResponseBodyResponse rid _ => rid
  | webSocketFrameSent e _ => e.requestId
  | webSocketFrameReceived e _ => e.requestId

/-- Response body structurally embedded in the event payload, when any. -/
def embeddedBody? : NetworkEvent → Option GetResponseBodyResponse
  | requestWillBeSent _ _ eb => eb
  | responseReceived _ eb => eb
  | requestWillBeSentExtraInfo _ eb => eb
  | responseReceivedExtraInfo _ eb => eb
  | requestServedFromCache _ eb => eb
  | loadingFinished _ eb => eb
  | loadingFailed _ eb => eb
  | dataReceived _ eb => eb
  | resourceChangedPriority _ eb => eb
  | getResponseBodyResponse _ _ => none
  | webSocketFrameSent _ eb => eb
  | webSocketFrameReceived _ eb => eb

end NetworkEvent

/-- Embeds the HarEntriesBuilder correlator state. -/
structure HarEntriesBuilder where
  options : PopulatedOptions
  timelord : TimeLord := {}
  allEntryBuilders : List HarEntryBuilder := []
  entryBuildersByFrameId : String → List Nat := fun _ => []
  entryBuildersByRequestId : String → Option Nat := fun _ => none
  harEntryCreationIndex : Nat := 0

namespace HarEntriesBuilder

/-- A fresh builder as constructed by the correlator. -/
def newBuilder (opts : PopulatedOptions) (order : Nat) : HarEntryBuilder :=
  { options := opts, orderArrived := order }

/-- Embeds the private getOrCreateForRequestId: return the indexed builder
for the identifier, or append a fresh one and index it. -/
def getOrCreateForRequestId (s : HarEntriesBuilder) (requestId : String) :
    HarEntriesBuilder × Nat :=
  match s.entryBuildersByRequestId requestId with
  | some i => (s, i)
  | none =>
    let i := s.allEntryBuilders.length
    ({ s with
        allEntryBuilders := s.allEntryBuilders ++ [newBuilder s.options s.harEntryCreationIndex],
        entryBuildersByRequestId :=
          fun r => if r = requestId then some i else s.entryBuildersByRequestId r,
        harEntryCreationIndex := s.harEntryCreationIndex + 1 }, i)

/-- Mutate the builder stored at position i, modelling assignment through
the shared object reference. -/
def setBuilder (s : HarEntriesBuilder) (i : Nat) (f : HarEntryBuilder → HarEntryBuilder) :
    HarEntriesBuilder :=
  { s with allEntryBuilders := listModify s.allEntryBuilders i f }

/-- Embeds onNetworkEvent of src/src/HarEntriesBuilder.ts: look up or create
the builder for the event's identifier, attach any structurally embedded
response body, then route the payload — with redirect splitting on a repeat
initiating event. -/
def onNetworkEvent (s : HarEntriesBuilder) (ev : NetworkEvent) : HarEntriesBuilder :=
  let requestId := ev.requestId
  let created := getOrCreateForRequestId s requestId
  let s := created.1
  let i := created.2
  let s :=
    match ev.embeddedBody? with
    | some g => setBuilder s i (fun b => { b with getResponseBodyResponse := some g })
    | none => s
  match ev with
  | .requestWillBeSent e redirectResponse _ =>
    let cur := s.allEntryBuilders.getD i (newBuilder s.options 0)
    let split :
        HarEntriesBuilder × Nat × Int :=
      if cur._requestWillBeSentEvent.isSome then
        let s := setBuilder s i (fun b => { b with redirectResponse := redirectResponse })
        let s := { s with entryBuildersByRequestId :=
          fun r => if r = requestId then none else s.entryBuildersByRequestId r }
        let recreated := getOrCreateForRequestId s requestId
        (recreated.1, recreated.2, cur.priorRedirects + 1)
      else
        (s, i, 0)
    let s := split.1
    let i := split.2.1
    let priorRedirects := split.2.2
    let s := { s with timelord := s.timelord.addTimestampWallTimePair (e.timestamp, e.wallTime) }
    let s := setBuilder s i
      (fun b => { b with _requestWillBeSentEvent := some e, priorRedirects := priorRedirects })
    let frameId := e.frameId.getD ""
    { s with entryBuildersByFrameId :=
        fun f => if f = frameId then s.entryBuildersByFrameId f ++ [i]
                 else s.entryBuildersByFrameId f }
  | .responseReceived e _ =>
    setBuilder s i (fun b => { b with responseReceivedEvent := some e })
  | .requestWillBeSentExtraInfo e _ =>
    setBuilder s i (fun b => { b with requestWillBeSentExtraInfoEvent := some e })
  | .responseReceivedExtraInfo e _ =>
    setBuilder s i (fun b => { b with responseReceivedExtraInfoEvent := some e })
  | .requestServedFromCache e _ =>
    setBuilder s i (fun b => { b with requestServedFromCacheEvent := some e })
  | .loadingFinished e _ =>
    setBuilder s i (fun b => { b with loadingFinishedEvent := some e })
  | .loadingFailed e _ =>
    setBuilder s i (fun b => { b with loadingFailedEvent := some e })
  | .dataReceived e _ =>
    setBuilder s i (fun b => { b with dataReceivedEvents := b.dataReceivedEvents ++ [e] })
  | .resourceChangedPriority e _ =>
    setBuilder s i (fun b => { b with resourceChangedPriorityEvent := some e })
  | .getResponseBodyResponse _ g =>
    setBuilder s i (fun b => { b with getResponseBodyResponse := some g })
  | .webSocketFrameSent e _ =>
    setBuilder s i (fun b => { b with webSocketEvents := b.webSocketEvents ++ [⟨.send, e⟩] })
  | .webSocketFrameReceived e _ =>
    setBuilder s i (fun b => { b with webSocketEvents := b.webSocketEvents ++ [⟨.receive, e⟩] })

/-- Deliver a whole event stream to a fresh correlator. -/
def processNetworkEvents (opts : PopulatedOptions) (events : List NetworkEvent) :
    HarEntriesBuilder :=
  events.foldl onNetworkEvent { options := opts }

/-- Embeds getCompletedHarEntryBuilders: the accumulators passing the
inclusion-eligibility filter, in creation order. -/
def getCompletedHarEntryBuilders (s : HarEntriesBuilder) :
    Except String (List HarEntryBuilder) :=
  exceptFilter HarEntryBuilder.isValidForInclusionInHarArchive s.allEntryBuilders

/-- Embeds getCompletedHarEntryBuildersSortedByRequestTime: the eligible
accumulators sorted ascending by requestTimeInSeconds. The host sort invokes
the comparator (which evaluates requestTimeInSeconds on both arguments) on
every element whenever at least two are present, so the derivation faults
exactly when some eligible accumulator has no timing; the sort itself is
modelled as a correct comparison sort for the comparator. -/
def getCompletedHarEntryBuildersSortedByRequestTime (s : HarEntriesBuilder) :
    Except String (List HarEntryBuilder) := do
  let valid ← getCompletedHarEntryBuilders s
  if valid.length ≤ 1 then
    pure valid
  else do
    let keyed ← exceptMap
      (fun b => do pure ((← HarEntryBuilder.requestTimeInSeconds b), b)) valid
    pure ((keyed.insertionSort (fun p q => p.1 ≤ q.1)).map (·.2))

/-- Embeds getCompletedHarEntries: map the sorted eligible accumulators to
their entry records and drop nulls. -/
def getCompletedHarEntries (s : HarEntriesBuilder) : Except String (List Entry) := do
  let sortedValidEntryBuilders ← getCompletedHarEntryBuildersSortedByRequestTime s
  let harEntries ← exceptMap (HarEntryBuilder.entry s.timelord) sortedValidEntryBuilders
  pure (harEntries.filterMap id)

end HarEntriesBuilder

/-- Entries of the archive produced from an event stream under the given
options (the entries getter reached from getHarArchive). -/
def harEntriesOfEvents (opts : PopulatedOptions) (events : List NetworkEvent) :
    Except String (List Entry) :=
  HarEntriesBuilder.getCompletedHarEntries (HarEntriesBuilder.processNetworkEvents opts events)

/- ---------------------------------------------------------------------
General lemmas about the Except monad and the list helpers.
--------------------------------------------------------------------- -/

@[simp] theorem exceptBind_ok {ε α β : Type} (a : α) (f : α → Except ε β) :
    (Except.ok a >>= f : Except ε β) = f a := rfl

@[simp] theorem exceptBind_error {ε α β : Type} (e : ε) (f : α → Except ε β) :
    ((Except.error e : Except ε α) >>= f) = .error e := rfl

@[simp] theorem exceptPure_eq_ok {ε α : Type} (a : α) : (pure a : Except ε α) = .ok a := rfl

theorem exceptBind_ok_iff {ε α β : Type} {e : Except ε α} {f : α → Except ε β} {v : β} :
    (e >>= f) = .ok v ↔ ∃ a, e = .ok a ∧ f a = .ok v := by
  cases e with
  | error err => simp
  | ok a => simp

theorem exceptBind_isOk_iff {ε α β : Type} {e : Except ε α} {f : α → Except ε β} :
    (e >>= f).isOk ↔ ∃ a, e = .ok a ∧ (f a).isOk := by
  cases e with
  | error err => simp [Except.isOk, Except.toBool]
  | ok a => simp

@[simp] theorem isOk_ok {ε α : Type} (a : α) : (Except.ok a : Except ε α).isOk := rfl

@[simp] theorem isOk_error_eq_false {ε α : Type} (e : ε) :
    (Except.error e : Except ε α).isOk = false := rfl

theorem isOk_iff_exists_ok {ε α : Type} {e : Except ε α} :
    e.isOk ↔ ∃ a, e = .ok a := by
  cases e with
  | error err => simp [Except.isOk, Except.toBool]
  | ok a => simp

@[simp] theorem length_listModify {α : Type} (l : List α) (i : Nat) (f : α → α) :
    (listModify l i f).length = l.length := by
  induction l generalizing i with
  | nil => rfl
  | cons a as ih =>
    cases i with
    | zero => rfl
    | succ n => simp [listModify, ih]

theorem getD_listModify_self {α : Type} (l : List α) (i : Nat) (f : α → α) (d : α)
    (h : i < l.length) : (listModify l i f).getD i d = f (l.getD i d) := by
  induction l generalizing i with
  | nil => simp at h
  | cons a as ih =>
    cases i with
    | zero => rfl
    | succ n =>
      simp only [listModify, List.getD_cons_succ]
      exact ih n (by simpa using h)

theorem getD_listModify_ne {α : Type} (l : List α) (i j : Nat) (f : α → α) (d : α)
    (h : j ≠ i) : (listModify l i f).getD j d = l.getD j d := by
  induction l generalizing i j with
  | nil => rfl
  | cons a as ih =>
    cases i with
    | zero =>
      cases j with
      | zero => exact absurd rfl h
      | succ m => rfl
    | succ n =>
      cases j with
      | zero => rfl
      | succ m =>
        simp only [listModify, List.getD_cons_succ]
        exact ih n m (fun hc => h (by rw [hc]))

theorem getD_append_self {α : Type} (l : List α) (a d : α) :
    (l ++ [a]).getD l.length d = a := by
  induction l with
  | nil => rfl
  | cons x xs ih => simp [ih]

theorem getD_append_lt {α : Type} (l l' : List α) (j : Nat) (d : α)
    (h : j < l.length) : (l ++ l').getD j d = l.getD j d := by
  induction l generalizing j with
  | nil => simp at h
  | cons x xs ih =>
    cases j with
    | zero => rfl
    | succ m => simpa using ih m (by simpa using h)

theorem exceptMap_ok_forall₂ {ε α β : Type} {f : α → Except ε β} :
    ∀ {l : List α} {l' : List β}, exceptMap f l = .ok l' →
      List.Forall₂ (fun a b => f a = .ok b) l l' := by
  intro l
  induction l with
  | nil =>
    intro l' h
    simp only [exceptMap] at h
    cases h
    exact .nil
  | cons a as ih =>
    intro l' h
    simp only [exceptMap] at h
    rw [exceptBind_ok_iff] at h
    obtain ⟨b, hb, h⟩ := h
    rw [exceptBind_ok_iff] at h
    obtain ⟨bs, hbs, h⟩ := h
    simp only [exceptPure_eq_ok, Except.ok.injEq] at h
    subst h
    exact .cons hb (ih hbs)

theorem mem_of_exceptFilter_ok {ε α : Type} {p : α → Except ε Bool} :
    ∀ {l l' : List α}, exceptFilter p l = .ok l' → ∀ a ∈ l', a ∈ l ∧ p a = .ok true := by
  intro l
  induction l with
  | nil =>
    intro l' h a ha
    simp only [exceptFilter] at h
    cases h
    simp at ha
  | cons x xs ih =>
    intro l' h a ha
    simp only [exceptFilter] at h
    rw [exceptBind_ok_iff] at h
    obtain ⟨keep, hkeep, h⟩ := h
    rw [exceptBind_ok_iff] at h
    obtain ⟨rest, hrest, h⟩ := h
    simp only [exceptPure_eq_ok, Except.ok.injEq] at h
    subst h
    cases keep with
    | true =>
      simp only [if_pos rfl] at ha
      rcases List.mem_cons.mp ha with h1 | h1
      · subst h1; exact ⟨List.mem_cons_self _ _, hkeep⟩
      · obtain ⟨h2, h3⟩ := ih hrest a h1
        exact ⟨List.mem_cons_of_mem _ h2, h3⟩
    | false =>
      rw [if_neg Bool.false_ne_true] at ha
      obtain ⟨h2, h3⟩ := ih hrest a ha
      exact ⟨List.mem_cons_of_mem _ h2, h3⟩

theorem mem_exceptFilter_of_mem {ε α : Type} {p : α → Except ε Bool} :
    ∀ {l l' : List α}, exceptFilter p l = .ok l' → ∀ a ∈ l, p a = .ok true → a ∈ l' := by
  intro l
  induction l with
  | nil =>
    intro l' h a ha
    simp at ha
  | cons x xs ih =>
    intro l' h a ha hpa
    simp only [exceptFilter] at h
    rw [exceptBind_ok_iff] at h
    obtain ⟨keep, hkeep, h⟩ := h
    rw [exceptBind_ok_iff] at h
    obtain ⟨rest, hrest, h⟩ := h
    simp only [exceptPure_eq_ok, Except.ok.injEq] at h
    subst h
    rcases List.mem_cons.mp ha with h1 | h1
    · subst h1
      rw [hpa] at hkeep
      cases hkeep
      simp
    · have := ih hrest a h1 hpa
      cases keep <;> simp [this]

/- ---------------------------------------------------------------------
Claim C5 — TimeLord monotonicity.
--------------------------------------------------------------------- -/

/-- C5: for every TimeLord state reachable by any sequence of record calls,
the timestamp-to-wall-time conversion is monotone (t1 < t2 implies
estimate t1 ≤ estimate t2), and consequently of two transactions whose
derived start times come from that TimeLord, the one with the smaller raw
monotonic input has the smaller-or-equal derived start time. -/
theorem timelord_estimate_monotone :
    (∀ (pairs : List (Int × Int)) (t1 t2 : Int), t1 < t2 →
      (TimeLord.ofPairs pairs).getApproximateWallTimeInSecondsFromUnixEpochFromMonotonicallyIncreasingTimestamp t1 ≤
      (TimeLord.ofPairs pairs).getApproximateWallTimeInSecondsFromUnixEpochFromMonotonicallyIncreasingTimestamp t2) ∧
    (∀ (pairs : List (Int × Int)) (b1 b2 : HarEntryBuilder) (t1 t2 w1 w2 : Int),
      HarEntryBuilder.requestStartMonotonicInput b1 = .ok t1 →
      HarEntryBuilder.requestStartMonotonicInput b2 = .ok t2 →
      t1 < t2 →
      HarEntryBuilder.requestStartTimeInSecondsFromUnixEpoch (TimeLord.ofPairs pairs) b1 = .ok w1 →
      HarEntryBuilder.requestStartTimeInSecondsFromUnixEpoch (TimeLord.ofPairs pairs) b2 = .ok w2 →
      w1 ≤ w2) := by
  constructor
  · intro pairs t1 t2 h
    exact add_le_add_left (le_of_lt h) _
  · intro pairs b1 b2 t1 t2 w1 w2 h1 h2 hlt hw1 hw2
    simp only [HarEntryBuilder.requestStartTimeInSecondsFromUnixEpoch, h1, h2,
      exceptBind_ok, exceptPure_eq_ok, Except.ok.injEq] at hw1 hw2
    subst hw1
    subst hw2
    exact add_le_add_left (le_of_lt hlt) _

/- ---------------------------------------------------------------------
Concrete fixtures used by witnesses and scenario conjuncts.
--------------------------------------------------------------------- -/

/-- Request payload for url A. -/
def fixtureRequestA : NetworkRequest := { url := "http://a/" }

/-- Request payload for url B. -/
def fixtureRequestB : NetworkRequest := { url := "http://b/" }

/-- Redirect response for url A (status 301, requestTime 1). -/
def fixtureRedirectResponse : NetworkResponse :=
  { status := 301, timing := some { requestTime := 1 } }

/-- Final response for url B (status 200, requestTime 2). -/
def fixtureFinalResponse : NetworkResponse :=
  { status := 200, timing := some { requestTime := 2 } }

/-- Initiating event for url A under identifier X. -/
def fixtureRwbsA : RequestWillBeSentEvent :=
  { requestId := "X", request := fixtureRequestA, timestamp := 10, wallTime := 1000 }

/-- Initiating event for url B under the same identifier X. -/
def fixtureRwbsB : RequestWillBeSentEvent :=
  { requestId := "X", request := fixtureRequestB, timestamp := 11, wallTime := 1001 }

/-- The two-request redirect scenario of the spec: request for A, repeat
initiating event carrying the redirect response for A and request data for
B, then the response for B. -/
def redirectScenarioEvents : List NetworkEvent :=
  [.requestWillBeSent fixtureRwbsA none none,
   .requestWillBeSent fixtureRwbsB (some fixtureRedirectResponse) none,
   .responseReceived { requestId := "X", response := fixtureFinalResponse } none]

/-- The accumulator for url A after the redirect scenario. -/
def fixtureBuilder1 : HarEntryBuilder := {
  options := defaultOptions
  orderArrived := 0
  _requestWillBeSentEvent := some fixtureRwbsA
  redirectResponse := some fixtureRedirectResponse }

/-- The accumulator for url B after the redirect scenario. -/
def fixtureBuilder2 : HarEntryBuilder := {
  options := defaultOptions
  orderArrived := 1
  priorRedirects := 1
  _requestWillBeSentEvent := some fixtureRwbsB
  responseReceivedEvent := some { requestId := "X", response := fixtureFinalResponse } }

/-- Witness for timelord_estimate_monotone: both conjuncts applied to the
TimeLord that saw the pair (10, 1000) and the two scenario accumulators. -/
theorem timelord_estimate_monotone_witness :
    ((TimeLord.ofPairs [(10, 1000)]).getApproximateWallTimeInSecondsFromUnixEpochFromMonotonicallyIncreasingTimestamp 1 ≤
      (TimeLord.ofPairs [(10, 1000)]).getApproximateWallTimeInSecondsFromUnixEpochFromMonotonicallyIncreasingTimestamp 2) ∧
    (991 : Int) ≤ 992 := by
  refine ⟨timelord_estimate_monotone.1 [(10, 1000)] 1 2 (by decide), ?_⟩
  exact timelord_estimate_monotone.2 [(10, 1000)] fixtureBuilder1 fixtureBuilder2
    1 2 991 992 (by decide) (by decide) (by decide) (by decide) (by decide)

/- ---------------------------------------------------------------------
Claim C4 — response bodySize fallback chain (current revision).
--------------------------------------------------------------------- -/

/-- Reference derivation written from the words of claim C4: captured body
length, else 0 for the no-content status codes, else the parsed
Content-Length value, else the sentinel -1. -/
def claimedBodySizeFallbackChain (capturedBody : Option String) (status : Int)
    (contentLengthHeaderValue : Option String) : Int :=
  match capturedBody with
  | some body => (body.length : Int)
  | none =>
    if (100 ≤ status ∧ status < 200) ∨ status = 204 ∨ status = 304 then 0
    else
      match contentLengthHeaderValue.bind jsParseInt with
      | some n => n
      | none => -1

/-- Unfolds the response accessor on a builder whose _response is a
response. -/
theorem response_ok {b : HarEntryBuilder} {resp : NetworkResponse}
    (h : HarEntryBuilder._response b = .ok (some resp)) :
    HarEntryBuilder.response b = .ok resp := by
  simp [HarEntryBuilder.response, h]

/-- C4: for every eligible entry outside legacy mode, responseBodySize
follows the claimed fallback chain (body length, else 0 on 1xx/204/304,
else parsed Content-Length, else -1); in particular a 304 with no captured
body yields 0, not -1. -/
theorem responseBodySize_fallback_chain :
    ∀ (b : HarEntryBuilder) (resp : NetworkResponse) (clv : Option HarHeader),
      b.options.mimicChromeHar = false →
      HarEntryBuilder._response b = .ok (some resp) →
      HarEntryBuilder.getResponseHeader b "Content-Length" = .ok clv →
      HarEntryBuilder.responseBodySize b =
        .ok (claimedBodySizeFallbackChain (HarEntryBuilder.responseBody b) resp.status
              (clv.map (·.value))) ∧
      (HarEntryBuilder.responseBody b = none → resp.status = 304 →
        HarEntryBuilder.responseBodySize b = .ok 0) := by
  intro b resp clv _hopts hresp hclv
  have hresp' := response_ok hresp
  constructor
  · cases hb : HarEntryBuilder.responseBody b with
    | some body =>
      simp [HarEntryBuilder.responseBodySize, claimedBodySizeFallbackChain, hb]
    | none =>
      simp only [HarEntryBuilder.responseBodySize, claimedBodySizeFallbackChain, hb,
        hresp', exceptBind_ok]
      by_cases hs : (100 ≤ resp.status ∧ resp.status < 200) ∨ resp.status = 204 ∨
          resp.status = 304
      · simp [hs]
      · simp only [if_neg hs, hclv, exceptBind_ok]
        cases (clv.map (·.value)).bind jsParseInt <;> simp
  · intro hb hs
    simp [HarEntryBuilder.responseBodySize, hb, hresp', hs]

/-- Witness for responseBodySize_fallback_chain: a 304 response with no
captured body and no Content-Length header yields bodySize 0. -/
theorem responseBodySize_fallback_chain_witness :
    HarEntryBuilder.responseBodySize {
      options := defaultOptions
      _requestWillBeSentEvent := some fixtureRwbsA
      responseReceivedEvent := some { requestId := "X", response := { status := 304 } } } =
      .ok 0 := by
  exact (responseBodySize_fallback_chain
    { options := defaultOptions
      _requestWillBeSentEvent := some fixtureRwbsA
      responseReceivedEvent := some { requestId := "X", response := { status := 304 } } }
    { status := 304 } none (by decide) (by decide) (by decide)).2 (by decide) (by decide)

/- ---------------------------------------------------------------------
Claim C8 — legacy-mode bodySize subtraction (chrome-har revision).
--------------------------------------------------------------------- -/

/-- C8: in legacy-compatibility mode the chrome-har revision derives the
response bodySize by subtracting the (non-negative) response header size
from the encoded transfer length reported at transaction completion,
clamping negative results to -1. -/
theorem legacy_responseBodySize_subtraction :
    ∀ (b : HarEntryBuilder) (resp : NetworkResponse) (lf : LoadingFinishedEvent) (h : Int),
      b.options.mimicChromeHar = true →
      HarEntryBuilder._response b = .ok (some resp) →
      b.loadingFinishedEvent = some lf →
      ChromeHarRev.responseHeadersSize b = .ok h →
      0 ≤ h →
      ChromeHarRev.responseBodySize b =
        .ok (if lf.encodedDataLength - h < 0 then -1 else lf.encodedDataLength - h) := by
  intro b resp lf h hopts hresp hlf hh h0
  have hresp' := response_ok hresp
  have hmax : max h 0 = h := max_eq_left h0
  unfold ChromeHarRev.responseBodySize
  rw [hopts]
  simp only [Bool.not_true, Bool.false_eq_true, if_false, exceptPure_eq_ok, exceptBind_ok,
    hresp', hlf, Option.map, Option.getD, hh, hmax]
  by_cases hc : lf.encodedDataLength - h < 0
  · rw [if_pos (by omega : h > lf.encodedDataLength), if_pos hc]
  · rw [if_neg (by omega : ¬ h > lf.encodedDataLength), if_neg hc]

/-- Witness for legacy_responseBodySize_subtraction: captured header text of
length 4 and an encoded transfer length of 10 yield bodySize 6. -/
theorem legacy_responseBodySize_subtraction_witness :
    ChromeHarRev.responseBodySize {
      options := { mimicChromeHar := true }
      _requestWillBeSentEvent := some fixtureRwbsA
      responseReceivedEvent := some { requestId := "X", response := { status := 200 } }
      responseReceivedExtraInfoEvent := some { requestId := "X", headersText := some "hhhh" }
      loadingFinishedEvent := some { requestId := "X", encodedDataLength := 10 } } =
      .ok 6 := by
  have := legacy_responseBodySize_subtraction
    { options := { mimicChromeHar := true }
      _requestWillBeSentEvent := some fixtureRwbsA
      responseReceivedEvent := some { requestId := "X", response := { status := 200 } }
      responseReceivedExtraInfoEvent := some { requestId := "X", headersText := some "hhhh" }
      loadingFinishedEvent := some { requestId := "X", encodedDataLength := 10 } }
    { status := 200 } { requestId := "X", encodedDataLength := 10 } 4
    (by decide) (by decide) (by decide) (by decide) (by decide)
  simpa using this

/- ---------------------------------------------------------------------
Claim C6 — cache filtering under the includeResourcesFromDiskCache option.
--------------------------------------------------------------------- -/

/-- C6: a transaction flagged as served from cache (via the cache-hit event
or the response's disk-cache flag), that is not an HTTP/2 push and not
served from early hints, fails the inclusion filter under default options
(and so is absent from the completed-builder list); the same transaction
with includeResourcesFromDiskCache set passes the filter (and is present)
provided it has an initiating event and a response, is not a non-abort
cancellation, and uses a supported scheme. -/
theorem cache_filtering :
    ∀ (b : HarEntryBuilder) (resp : NetworkResponse) (od : PopulatedOptions),
      HarEntryBuilder._response b = .ok (some resp) →
      (b.requestServedFromCacheEvent.isSome ∨ resp.fromDiskCache = some true) →
      HarEntryBuilder.wasHttp2Push b = .ok false →
      resp.fromEarlyHints.getD false = false →
      ((b.options = defaultOptions →
        HarEntryBuilder.isValidForInclusionInHarArchive b = .ok false ∧
        ∀ (s : HarEntriesBuilder) (l : List HarEntryBuilder),
          HarEntriesBuilder.getCompletedHarEntryBuilders s = .ok l → b ∉ l) ∧
      (od.includeResourcesFromDiskCache = true →
        b._requestWillBeSentEvent.isSome →
        (∀ lf, b.loadingFailedEvent = some lf →
          ((lf.canceled.getD false) && lf.errorText ≠ "net::ERR_ABORTED") = false) →
        HarEntryBuilder.isSupportedProtocol { b with options := od } = .ok true →
        HarEntryBuilder.isValidForInclusionInHarArchive { b with options := od } = .ok true ∧
        ∀ (s : HarEntriesBuilder) (l : List HarEntryBuilder),
          { b with options := od } ∈ s.allEntryBuilders →
          HarEntriesBuilder.getCompletedHarEntryBuilders s = .ok l →
          { b with options := od } ∈ l)) := by
  intro b resp od hresp hflag hpush heh
  constructor
  · intro hdef
    have hvalid : HarEntryBuilder.isValidForInclusionInHarArchive b = .ok false := by
      unfold HarEntryBuilder.isValidForInclusionInHarArchive
      rw [hresp]
      simp only [exceptBind_ok, Option.isNone_some, Bool.or_false, Bool.false_or]
      cases hreq : b._requestWillBeSentEvent with
      | none => simp
      | some e =>
        simp only [Option.isNone_some, Bool.false_or, Bool.false_eq_true, if_false]
        have hsup : HarEntryBuilder.isSupportedProtocol b =
            .ok (strStartsWith e.request.url "http:" || strStartsWith e.request.url "https:" ||
              ((strStartsWith e.request.url "ws:" || strStartsWith e.request.url "wss:") &&
                !b.options.mimicChromeHar)) := by
          simp [HarEntryBuilder.isSupportedProtocol, HarEntryBuilder.request,
            HarEntryBuilder.requestWillBeSentEvent, hreq]
        cases hcan : (match b.loadingFailedEvent with
          | some lf => (lf.canceled.getD false) && decide (lf.errorText ≠ "net::ERR_ABORTED")
          | none => false) with
        | true => simp [hcan]
        | false =>
          simp only [hcan, Bool.false_eq_true, if_false, hsup, exceptBind_ok]
          cases hsp : (strStartsWith e.request.url "http:" || strStartsWith e.request.url "https:" ||
              ((strStartsWith e.request.url "ws:" || strStartsWith e.request.url "wss:") &&
                !b.options.mimicChromeHar)) with
          | false => simp
          | true =>
            simp only [Bool.not_true, Bool.false_eq_true, if_false, hdef]
            simp only [defaultOptions, Bool.not_false, if_true, response_ok hresp,
              exceptBind_ok, hpush]
            rcases hflag with hf | hf
            · simp [hf]
            · simp [hf, heh]
    refine ⟨hvalid, ?_⟩
    intro s l hl hmem
    have := (mem_of_exceptFilter_ok hl b hmem).2
    rw [hvalid] at this
    cases this
  · intro hinc hreq hcancel hsup
    have hresp2 : HarEntryBuilder._response { b with options := od } = .ok (some resp) := by
      simpa [HarEntryBuilder._response] using hresp
    have hvalid : HarEntryBuilder.isValidForInclusionInHarArchive { b with options := od } =
        .ok true := by
      unfold HarEntryBuilder.isValidForInclusionInHarArchive
      rw [hresp2]
      obtain ⟨e, hreqe⟩ := Option.isSome_iff_exists.mp hreq
      rw [show ({ b with options := od } : HarEntryBuilder)._requestWillBeSentEvent =
        b._requestWillBeSentEvent from rfl, hreqe] at hsup ⊢
      simp only [exceptBind_ok, hreqe, Option.isNone_some, Bool.or_self, Bool.false_eq_true,
        if_false]
      have hcan : (match b.loadingFailedEvent with
          | some lf => (lf.canceled.getD false) && decide (lf.errorText ≠ "net::ERR_ABORTED")
          | none => false) = false := by
        cases hlf : b.loadingFailedEvent with
        | none => simp
        | some lf => simpa using hcancel lf hlf
      simp only [hcan, Bool.false_eq_true, if_false, hsup, exceptBind_ok, Bool.not_true,
        hinc, Bool.not_false, if_false, if_true, exceptPure_eq_ok]
    refine ⟨hvalid, ?_⟩
    intro s l hmem hl
    exact mem_exceptFilter_of_mem hl _ hmem hvalid

/-- Disk-cache-served response used by the cache-filtering witness. -/
def fixtureDiskCacheResponse : NetworkResponse :=
  { status := 200, fromDiskCache := some true, timing := some { requestTime := 1 } }

/-- Accumulator holding a disk-cache-served transaction, parametrised by the
options it was created under. -/
def fixtureDiskCacheBuilder (o : PopulatedOptions) : HarEntryBuilder := {
  options := o
  _requestWillBeSentEvent := some fixtureRwbsA
  responseReceivedEvent := some { requestId := "X", response := fixtureDiskCacheResponse } }

/-- Witness for cache_filtering: a disk-cache response is rejected by the
filter under default options and accepted once disk-cache inclusion is
requested. -/
theorem cache_filtering_witness :
    HarEntryBuilder.isValidForInclusionInHarArchive (fixtureDiskCacheBuilder defaultOptions) =
      .ok false ∧
    HarEntryBuilder.isValidForInclusionInHarArchive
      (fixtureDiskCacheBuilder { includeResourcesFromDiskCache := true }) = .ok true := by
  have h := cache_filtering (fixtureDiskCacheBuilder defaultOptions)
    fixtureDiskCacheResponse { includeResourcesFromDiskCache := true }
    (by decide) (Or.inr (by decide)) (by decide) (by decide)
  refine ⟨(h.1 rfl).1, ?_⟩
  have h2 := (h.2 (by decide) (by decide) (by intro lf hlf; cases hlf) (by decide)).1
  exact h2

/- ---------------------------------------------------------------------
Claim C9 — properties of headersRecordToArrayOfHarHeaders.
--------------------------------------------------------------------- -/

/-- Value stored under a key of a record. -/
def recordLookup (r : HeadersRecord) (k : String) : Option String :=
  (r.find? (fun p => p.1 = k)).map (·.2)

/-- Keys of a record in order. -/
def recordKeys (r : HeadersRecord) : List String := r.map (·.1)

theorem lookup_mapReplace_self (k v : String) :
    ∀ (r : HeadersRecord), (r.any fun p => decide (p.1 = k)) = true →
      recordLookup (r.map (fun p => if p.1 = k then (k, v) else p)) k = some v := by
  intro r
  induction r with
  | nil => intro h; simp at h
  | cons p r ih =>
    intro hany
    simp only [List.map_cons]
    by_cases hp : p.1 = k
    · rw [if_pos hp]
      unfold recordLookup
      rw [List.find?_cons_of_pos _ (by simp)]
      rfl
    · rw [if_neg hp]
      unfold recordLookup at ih ⊢
      rw [List.find?_cons_of_neg _ (by simpa using hp)]
      apply ih
      simp only [List.any_cons, Bool.or_eq_true] at hany
      rcases hany with h | h
      · exact absurd (by simpa using h) hp
      · exact h

theorem lookup_mapReplace_ne (k v k' : String) (hk : k' ≠ k) :
    ∀ (r : HeadersRecord),
      recordLookup (r.map (fun p => if p.1 = k then (k, v) else p)) k' =
        recordLookup r k' := by
  intro r
  induction r with
  | nil => rfl
  | cons p r ih =>
    simp only [List.map_cons]
    by_cases hp : p.1 = k
    · rw [if_pos hp]
      unfold recordLookup at ih ⊢
      rw [List.find?_cons_of_neg _ (by simpa using fun hc : k = k' => hk hc.symm)]
      rw [List.find?_cons_of_neg _ (by simpa using fun hc : p.1 = k' => hk (by rw [← hc, hp]))]
      exact ih
    · rw [if_neg hp]
      by_cases hpk' : p.1 = k'
      · unfold recordLookup
        rw [List.find?_cons_of_pos _ (by simpa using hpk'),
          List.find?_cons_of_pos _ (by simpa using hpk')]
      · unfold recordLookup at ih ⊢
        rw [List.find?_cons_of_neg _ (by simpa using hpk'),
          List.find?_cons_of_neg _ (by simpa using hpk')]
        exact ih

theorem recordLookup_recordSet (r : HeadersRecord) (k v k' : String) :
    recordLookup (recordSet r k v) k' = if k' = k then some v else recordLookup r k' := by
  unfold recordSet
  by_cases hany : (r.any fun p => decide (p.1 = k)) = true
  · rw [if_pos hany]
    by_cases hk : k' = k
    · subst hk
      rw [lookup_mapReplace_self k' v r hany, if_pos rfl]
    · rw [lookup_mapReplace_ne k v k' hk r, if_neg hk]
  · rw [if_neg hany]
    by_cases hk : k' = k
    · subst hk
      rw [if_pos rfl]
      unfold recordLookup
      rw [List.find?_append]
      rw [show r.find? (fun p => decide (p.1 = k')) = none from by
        rw [List.find?_eq_none]
        intro x hx
        simp only [decide_eq_true_eq]
        intro hc
        have hany2 : (r.any fun p => decide (p.1 = k')) = false := by
          cases h2 : (r.any fun p => decide (p.1 = k')) with
          | false => rfl
          | true => exact absurd h2 hany
        exact (List.any_eq_false.mp hany2 x hx) (by simpa using hc)]
      rw [List.find?_cons_of_pos _ (by simp)]
      rfl
    · rw [if_neg hk]
      unfold recordLookup
      rw [List.find?_append]
      rw [show List.find? (fun p => decide (p.1 = k')) [(k, v)] = none from by
        rw [List.find?_cons_of_neg _ (by simpa using fun hc : k = k' => hk hc.symm)]
        rfl]
      cases r.find? (fun p => decide (p.1 = k')) <;> rfl

theorem recordLookup_foldl_lower (lc : String) :
    ∀ (input : HeadersRecord) (acc : HeadersRecord),
      recordLookup (input.foldl (fun r p => recordSet r (strToLower p.1) p.2) acc) lc =
        match input.reverse.find? (fun q => strToLower q.1 = lc) with
        | some q => some q.2
        | none => recordLookup acc lc := by
  intro input
  induction input with
  | nil => intro acc; simp
  | cons p input ih =>
    intro acc
    simp only [List.foldl_cons, List.reverse_cons, List.find?_append, ih]
    cases hfind : input.reverse.find? (fun q => decide (strToLower q.1 = lc)) with
    | some q => rfl
    | none =>
      by_cases hp : strToLower p.1 = lc
      · rw [show List.find? (fun q => decide (strToLower q.1 = lc)) [p] = some p from
          List.find?_cons_of_pos _ (by simpa using hp)]
        rw [recordLookup_recordSet, if_pos hp.symm]
        rfl
      · rw [show List.find? (fun q => decide (strToLower q.1 = lc)) [p] = none from by
          rw [List.find?_cons_of_neg _ (by simpa using hp)]
          rfl]
        rw [recordLookup_recordSet, if_neg (fun hc => hp hc.symm)]
        rfl

theorem recordKeys_recordSet_subset (r : HeadersRecord) (k v key : String) :
    key ∈ recordKeys (recordSet r k v) → key = k ∨ key ∈ recordKeys r := by
  unfold recordSet recordKeys
  by_cases hany : (r.any fun p => decide (p.1 = k)) = true
  · rw [if_pos hany]
    intro h
    rw [List.mem_map] at h
    obtain ⟨p, hp, hkey⟩ := h
    rw [List.mem_map] at hp
    obtain ⟨q, hq, hfq⟩ := hp
    by_cases hqk : q.1 = k
    · left
      rw [← hkey, ← hfq, if_pos hqk]
    · right
      refine List.mem_map.mpr ⟨q, hq, ?_⟩
      rw [← hkey, ← hfq, if_neg hqk]
  · rw [if_neg hany]
    intro h
    rw [List.map_append, List.mem_append] at h
    rcases h with h | h
    · right; exact h
    · left
      simpa using h

theorem nodup_recordKeys_recordSet (r : HeadersRecord) (k v : String)
    (h : (recordKeys r).Nodup) : (recordKeys (recordSet r k v)).Nodup := by
  unfold recordSet recordKeys
  by_cases hany : (r.any fun p => decide (p.1 = k)) = true
  · rw [if_pos hany]
    have heq : (r.map (fun p => if p.1 = k then (k, v) else p)).map (·.1) = r.map (·.1) := by
      rw [List.map_map]
      apply List.map_congr_left
      intro p _
      by_cases hpk : p.1 = k
      · simp [hpk]
      · simp [hpk]
    rw [heq]
    exact h
  · rw [if_neg hany]
    rw [List.map_append]
    simp only [List.map_cons, List.map_nil]
    rw [List.nodup_append]
    refine ⟨h, List.nodup_singleton _, ?_⟩
    intro key hkey
    simp only [List.mem_singleton]
    intro hc
    subst hc
    rw [List.mem_map] at hkey
    obtain ⟨p, hp, hpk⟩ := hkey
    have hany2 : (r.any fun p => decide (p.1 = key)) = false := by
      cases h2 : (r.any fun p => decide (p.1 = key)) with
      | false => rfl
      | true => exact absurd h2 hany
    exact (List.any_eq_false.mp hany2 p hp) (by simpa using hpk)

theorem nodup_recordKeys_foldl_lower :
    ∀ (input : HeadersRecord) (acc : HeadersRecord), (recordKeys acc).Nodup →
      (recordKeys (input.foldl (fun r p => recordSet r (strToLower p.1) p.2) acc)).Nodup := by
  intro input
  induction input with
  | nil => intro acc h; exact h
  | cons p input ih =>
    intro acc h
    exact ih _ (nodup_recordKeys_recordSet _ _ _ h)

theorem recordKeys_foldl_lower_images :
    ∀ (input : HeadersRecord) (acc : HeadersRecord) (key : String),
      key ∈ recordKeys (input.foldl (fun r p => recordSet r (strToLower p.1) p.2) acc) →
      key ∈ recordKeys acc ∨ ∃ p ∈ input, key = strToLower p.1 := by
  intro input
  induction input with
  | nil => intro acc key h; exact Or.inl h
  | cons p input ih =>
    intro acc key h
    rcases ih _ key h with h1 | h1
    · rcases recordKeys_recordSet_subset _ _ _ _ h1 with h2 | h2
      · exact Or.inr ⟨p, List.mem_cons_self _ _, h2⟩
      · exact Or.inl h2
    · obtain ⟨q, hq, hkey⟩ := h1
      exact Or.inr ⟨q, List.mem_cons_of_mem _ hq, hkey⟩

theorem mem_iff_recordLookup (r : HeadersRecord) (h : (recordKeys r).Nodup) (k v : String) :
    (k, v) ∈ r ↔ recordLookup r k = some v := by
  induction r with
  | nil => simp [recordLookup]
  | cons p r ih =>
    obtain ⟨p1, p2⟩ := p
    rw [recordKeys, List.map_cons, List.nodup_cons] at h
    constructor
    · intro hmem
      rcases List.mem_cons.mp hmem with h1 | h1
      · rw [show (p1, p2) = (k, v) from h1.symm]
        unfold recordLookup
        rw [List.find?_cons_of_pos _ (by simp)]
        rfl
      · unfold recordLookup
        have hne : ¬ p1 = k := by
          intro hc
          subst hc
          exact h.1 (List.mem_map.mpr ⟨(p1, v), h1, rfl⟩)
        rw [List.find?_cons_of_neg _ (by simpa using hne)]
        exact (ih h.2).mp h1
    · intro hl
      by_cases hpk : p1 = k
      · simp only [recordLookup, List.find?,
          show decide ((p1, p2).1 = k) = true from by simpa using hpk,
          Option.map, Option.some.injEq] at hl
        rw [← hpk, ← hl]
        exact List.mem_cons_self _ _
      · unfold recordLookup at hl
        rw [show List.find? (fun p => decide (p.1 = k)) ((p1, p2) :: r) =
            List.find? (fun p => decide (p.1 = k)) r from
          List.find?_cons_of_neg _ (by simpa using hpk)] at hl
        exact List.mem_cons_of_mem _ ((ih h.2).mpr hl)

theorem char_toLower_idem (c : Char) : c.toLower.toLower = c.toLower := by
  unfold Char.toLower
  by_cases h : c.toNat ≥ 65 ∧ c.toNat ≤ 90
  · rw [if_pos h]
    obtain ⟨h1, h2⟩ := h
    generalize c.toNat = n at h1 h2
    interval_cases n <;> decide
  · rw [if_neg h, if_neg h]

theorem strToLower_idempotent (s : String) : strToLower (strToLower s) = strToLower s := by
  unfold strToLower
  rw [List.map_map]
  apply congrArg
  apply List.map_congr_left
  intro c _
  exact char_toLower_idem c

/-- Names-ordering relation is total. -/
instance : IsTotal HarHeader (fun a b => a.name.data ≤ b.name.data) :=
  ⟨fun a b => le_total a.name.data b.name.data⟩

/-- Names-ordering relation is transitive. -/
instance : IsTrans HarHeader (fun a b => a.name.data ≤ b.name.data) :=
  ⟨fun _ _ _ hab hbc => le_trans hab hbc⟩

/-- C9: for every header record input, the produced HAR header list has
only lowercase names, is sorted ascending by name, has at most one entry
per name, and maps each name to the value of the last record entry whose
lowercased key is that name (so a later same-name-different-case occurrence
wins). -/
theorem headersRecord_lowercase_sorted_unique_lastwins :
    ∀ (input : HeadersRecord),
      (∀ h ∈ headersRecordToArrayOfHarHeaders input, strToLower h.name = h.name) ∧
      List.Sorted (fun a b : HarHeader => a.name.data ≤ b.name.data)
        (headersRecordToArrayOfHarHeaders input) ∧
      (headersRecordToArrayOfHarHeaders input).Pairwise (fun a b => a.name ≠ b.name) ∧
      (∀ (lc v : String),
        HarHeader.mk lc v ∈ headersRecordToArrayOfHarHeaders input ↔
          ∃ q, input.reverse.find? (fun p => strToLower p.1 = lc) = some q ∧ q.2 = v) := by
  intro input
  have hperm : (headersRecordToArrayOfHarHeaders input).Perm
      ((input.foldl (fun r p => recordSet r (strToLower p.1) p.2) []).map
        (fun p => HarHeader.mk p.1 p.2)) := by
    unfold headersRecordToArrayOfHarHeaders sortHarHeadersByName
    exact List.perm_insertionSort _ _
  have hnodupKeys : (recordKeys (input.foldl
      (fun r p => recordSet r (strToLower p.1) p.2) [])).Nodup :=
    nodup_recordKeys_foldl_lower input [] (by simp [recordKeys])
  refine ⟨?_, ?_, ?_, ?_⟩
  · intro h hmem
    have hmem' := hperm.mem_iff.mp hmem
    rw [List.mem_map] at hmem'
    obtain ⟨p, hp, hmk⟩ := hmem'
    have hkey : p.1 ∈ recordKeys (input.foldl
        (fun r p => recordSet r (strToLower p.1) p.2) []) :=
      List.mem_map.mpr ⟨p, hp, rfl⟩
    rcases recordKeys_foldl_lower_images input [] p.1 hkey with hc | hc
    · simp [recordKeys] at hc
    · obtain ⟨q, _, hq⟩ := hc
      have hname : p.1 = h.name := congrArg HarHeader.name hmk
      rw [← hname, hq]
      exact strToLower_idempotent _
  · unfold headersRecordToArrayOfHarHeaders sortHarHeadersByName
    exact List.sorted_insertionSort _ _
  · rw [List.Perm.pairwise_iff (fun h => Ne.symm h) hperm, List.pairwise_map]
    have hpw : (input.foldl (fun r p => recordSet r (strToLower p.1) p.2) []).Pairwise
        (fun p q => ¬ p.1 = q.1) := by
      have h := hnodupKeys
      rw [recordKeys, List.Nodup, List.pairwise_map] at h
      exact h
    exact hpw.imp (fun h => h)
  · intro lc v
    rw [hperm.mem_iff, List.mem_map]
    have hmem : (∃ p ∈ input.foldl (fun r p => recordSet r (strToLower p.1) p.2) [],
        HarHeader.mk p.1 p.2 = HarHeader.mk lc v) ↔
        (lc, v) ∈ input.foldl (fun r p => recordSet r (strToLower p.1) p.2) [] := by
      constructor
      · rintro ⟨p, hp, hmk⟩
        have h1 : p.1 = lc := congrArg HarHeader.name hmk
        have h2 : p.2 = v := congrArg HarHeader.value hmk
        have hpp : p = (lc, v) := by
          rw [show p = (p.1, p.2) from rfl, h1, h2]
        exact hpp ▸ hp
      · intro hp
        exact ⟨(lc, v), hp, rfl⟩
    rw [hmem, mem_iff_recordLookup _ hnodupKeys, recordLookup_foldl_lower]
    cases hf : input.reverse.find? (fun p => decide (strToLower p.1 = lc)) with
    | some q => simp
    | none => simp [recordLookup]

/-- Witness for headersRecord_lowercase_sorted_unique_lastwins: on the
record with keys B, a, b (in that order) the later lowercase b entry wins
over the earlier uppercase B entry. -/
theorem headersRecord_lowercase_sorted_unique_lastwins_witness :
    HarHeader.mk "b" "3" ∈ headersRecordToArrayOfHarHeaders [("B", "1"), ("a", "2"), ("b", "3")] := by
  exact ((headersRecord_lowercase_sorted_unique_lastwins
    [("B", "1"), ("a", "2"), ("b", "3")]).2.2.2 "b" "3").mpr ⟨("b", "3"), by decide, rfl⟩

end HardyHar

namespace HardyHar

/- ---------------------------------------------------------------------
Claim C2 — redirect splitting on a repeat initiating event.
--------------------------------------------------------------------- -/

/-- C2: when an initiating event arrives for an identifier whose indexed
accumulator already holds an initiating event, that accumulator receives
the event's embedded redirectResponse as its terminal response and loses
the identifier index; a fresh accumulator is created under the same
identifier carrying the new initiating event and a prior-redirect count one
greater than the old one's. In the two-request redirect scenario the
archive holds exactly two entries: url A with the redirect response's
status, then url B with the later response's status. -/
theorem redirect_splitting :
    (∀ (s : HarEntriesBuilder) (e : RequestWillBeSentEvent) (rr : Option NetworkResponse)
        (i : Nat) (cur : HarEntryBuilder),
      s.entryBuildersByRequestId e.requestId = some i →
      i < s.allEntryBuilders.length →
      s.allEntryBuilders.getD i (HarEntriesBuilder.newBuilder s.options 0) = cur →
      cur._requestWillBeSentEvent.isSome →
      (HarEntriesBuilder.onNetworkEvent s
          (.requestWillBeSent e rr none)).allEntryBuilders.length =
        s.allEntryBuilders.length + 1 ∧
      (HarEntriesBuilder.onNetworkEvent s
          (.requestWillBeSent e rr none)).allEntryBuilders.getD i
            (HarEntriesBuilder.newBuilder s.options 0) =
        { cur with redirectResponse := rr } ∧
      (HarEntriesBuilder.onNetworkEvent s
          (.requestWillBeSent e rr none)).entryBuildersByRequestId e.requestId =
        some s.allEntryBuilders.length ∧
      (HarEntriesBuilder.onNetworkEvent s
          (.requestWillBeSent e rr none)).allEntryBuilders.getD
            s.allEntryBuilders.length (HarEntriesBuilder.newBuilder s.options 0) =
        { HarEntriesBuilder.newBuilder s.options s.harEntryCreationIndex with
            _requestWillBeSentEvent := some e
            priorRedirects := cur.priorRedirects + 1 }) ∧
    (harEntriesOfEvents defaultOptions redirectScenarioEvents).map
        (fun es => es.map (fun en => (en.requestUrl, en.responseStatus))) =
      .ok [("http://a/", 301), ("http://b/", 200)] := by
  constructor
  · intro s e rr i cur h1 hlen hcur hsome
    have hne : i ≠ s.allEntryBuilders.length := Nat.ne_of_lt hlen
    simp only [HarEntriesBuilder.onNetworkEvent, NetworkEvent.requestId,
      NetworkEvent.embeddedBody?, HarEntriesBuilder.getOrCreateForRequestId, h1,
      HarEntriesBuilder.setBuilder, hcur, hsome, if_pos rfl, eq_self_iff_true, if_true,
      length_listModify, List.length_append, List.length_cons, List.length_nil]
    refine ⟨trivial, ?_, ?_, ?_⟩
    · rw [getD_listModify_ne _ _ _ _ _ hne,
        getD_append_lt _ _ _ _ (by rw [length_listModify]; exact hlen),
        getD_listModify_self _ _ _ _ hlen, hcur]
    · simp
    · rw [getD_listModify_self _ _ _ _
        (by rw [List.length_append, length_listModify]; simp)]
      rw [show (listModify s.allEntryBuilders i
            (fun b => { b with redirectResponse := rr }) ++
            [HarEntriesBuilder.newBuilder s.options s.harEntryCreationIndex]).getD
          s.allEntryBuilders.length (HarEntriesBuilder.newBuilder s.options 0) =
          HarEntriesBuilder.newBuilder s.options s.harEntryCreationIndex from by
        rw [show s.allEntryBuilders.length =
            (listModify s.allEntryBuilders i
              (fun b => { b with redirectResponse := rr })).length from
          (length_listModify _ _ _).symm]
        exact getD_append_self _ _ _]
  · decide

/-- Witness for redirect_splitting: the general transition conjunct applied
to the state reached after the first scenario event, with the second
initiating event of the scenario. -/
theorem redirect_splitting_witness :
    ((HarEntriesBuilder.onNetworkEvent
        (HarEntriesBuilder.processNetworkEvents defaultOptions
          [.requestWillBeSent fixtureRwbsA none none])
        (.requestWillBeSent fixtureRwbsB (some fixtureRedirectResponse)
          none)).allEntryBuilders.length = 2) ∧
    ((HarEntriesBuilder.onNetworkEvent
        (HarEntriesBuilder.processNetworkEvents defaultOptions
          [.requestWillBeSent fixtureRwbsA none none])
        (.requestWillBeSent fixtureRwbsB (some fixtureRedirectResponse)
          none)).entryBuildersByRequestId "X" = some 1) := by
  have h := redirect_splitting.1
    (HarEntriesBuilder.processNetworkEvents defaultOptions
      [.requestWillBeSent fixtureRwbsA none none])
    fixtureRwbsB (some fixtureRedirectResponse) 0
    { options := defaultOptions
      orderArrived := 0
      _requestWillBeSentEvent := some fixtureRwbsA }
    (by decide) (by decide) (by decide) (by decide)
  exact ⟨h.1, h.2.2.1⟩

end HardyHar

namespace HardyHar

/- ---------------------------------------------------------------------
Claim C7 — order independence of extra-info vs primary response delivery.
--------------------------------------------------------------------- -/

theorem listModify_listModify {α : Type} (l : List α) (i : Nat) (f g : α → α) :
    listModify (listModify l i f) i g = listModify l i (fun x => g (f x)) := by
  induction l generalizing i with
  | nil => rfl
  | cons a as ih =>
    cases i with
    | zero => rfl
    | succ n => simp [listModify, ih]

theorem map_listModify_eq {α β : Type} (m : α → β) (f g : α → α) :
    ∀ (l : List α) (i : Nat), (∀ x, m (f x) = m (g x)) →
      (listModify l i f).map m = (listModify l i g).map m := by
  intro l
  induction l with
  | nil => intro i h; rfl
  | cons a as ih =>
    intro i h
    cases i with
    | zero => simp [listModify, h a]
    | succ n => simp [listModify, ih n h]

theorem listModify_append_self {α : Type} (l : List α) (a : α) (f : α → α) :
    listModify (l ++ [a]) l.length f = l ++ [f a] := by
  induction l with
  | nil => rfl
  | cons x xs ih => simp [listModify, ih]

theorem getD_map {α β : Type} (m : α → β) (l : List α) (i : Nat) (d : α) :
    (l.map m).getD i (m d) = m (l.getD i d) := by
  induction l generalizing i with
  | nil => rfl
  | cons a as ih =>
    cases i with
    | zero => rfl
    | succ n => exact ih n

/-- Forget the attached response body of an accumulator; delivery order of
an extra-info event and the primary response event can affect only this
field (when both carry a structurally embedded body). -/
def HarEntryBuilder.eraseResponseBody (b : HarEntryBuilder) : HarEntryBuilder :=
  { b with getResponseBodyResponse := none }

/-- States equal in everything observable by header/cookie derivations:
all components agree, builders up to their attached response bodies. -/
def HarEntriesBuilder.observablyEqual (s1 s2 : HarEntriesBuilder) : Prop :=
  s1.options = s2.options ∧ s1.timelord = s2.timelord ∧
  s1.allEntryBuilders.map HarEntryBuilder.eraseResponseBody =
    s2.allEntryBuilders.map HarEntryBuilder.eraseResponseBody ∧
  s1.allEntryBuilders.length = s2.allEntryBuilders.length ∧
  s1.entryBuildersByFrameId = s2.entryBuildersByFrameId ∧
  s1.entryBuildersByRequestId = s2.entryBuildersByRequestId ∧
  s1.harEntryCreationIndex = s2.harEntryCreationIndex

/-- Attach a structurally embedded response body, as the correlator does
before routing any event. -/
def attachBody (eb : Option GetResponseBodyResponse) (b : HarEntryBuilder) : HarEntryBuilder :=
  match eb with
  | some g => { b with getResponseBodyResponse := some g }
  | none => b

/-- Effect of every event other than a repeat initiating event: find or
create the accumulator for the identifier, then update it in place. -/
def applySimple (s : HarEntriesBuilder) (rid : String)
    (u : HarEntryBuilder → HarEntryBuilder) : HarEntriesBuilder :=
  HarEntriesBuilder.setBuilder (HarEntriesBuilder.getOrCreateForRequestId s rid).1
    (HarEntriesBuilder.getOrCreateForRequestId s rid).2 u

theorem onNetworkEvent_responseReceived (s : HarEntriesBuilder)
    (rr : ResponseReceivedEvent) (eb : Option GetResponseBodyResponse) :
    HarEntriesBuilder.onNetworkEvent s (.responseReceived rr eb) =
      applySimple s rr.requestId
        (fun b => { attachBody eb b with responseReceivedEvent := some rr }) := by
  unfold HarEntriesBuilder.onNetworkEvent applySimple
  cases eb with
  | none =>
    simp [NetworkEvent.embeddedBody?, NetworkEvent.requestId, attachBody]
  | some g =>
    simp only [NetworkEvent.embeddedBody?, NetworkEvent.requestId, attachBody,
      HarEntriesBuilder.setBuilder, listModify_listModify]

theorem onNetworkEvent_requestWillBeSentExtraInfo (s : HarEntriesBuilder)
    (x : RequestWillBeSentExtraInfoEvent) (eb : Option GetResponseBodyResponse) :
    HarEntriesBuilder.onNetworkEvent s (.requestWillBeSentExtraInfo x eb) =
      applySimple s x.requestId
        (fun b => { attachBody eb b with requestWillBeSentExtraInfoEvent := some x }) := by
  unfold HarEntriesBuilder.onNetworkEvent applySimple
  cases eb with
  | none =>
    simp [NetworkEvent.embeddedBody?, NetworkEvent.requestId, attachBody]
  | some g =>
    simp only [NetworkEvent.embeddedBody?, NetworkEvent.requestId, attachBody,
      HarEntriesBuilder.setBuilder, listModify_listModify]

theorem onNetworkEvent_responseReceivedExtraInfo (s : HarEntriesBuilder)
    (x : ResponseReceivedExtraInfoEvent) (eb : Option GetResponseBodyResponse) :
    HarEntriesBuilder.onNetworkEvent s (.responseReceivedExtraInfo x eb) =
      applySimple s x.requestId
        (fun b => { attachBody eb b with responseReceivedExtraInfoEvent := some x }) := by
  unfold HarEntriesBuilder.onNetworkEvent applySimple
  cases eb with
  | none =>
    simp [NetworkEvent.embeddedBody?, NetworkEvent.requestId, attachBody]
  | some g =>
    simp only [NetworkEvent.embeddedBody?, NetworkEvent.requestId, attachBody,
      HarEntriesBuilder.setBuilder, listModify_listModify]

theorem applySimple_comm (s : HarEntriesBuilder) (rid : String)
    (u1 u2 : HarEntryBuilder → HarEntryBuilder)
    (hcomm : ∀ b, HarEntryBuilder.eraseResponseBody (u2 (u1 b)) =
      HarEntryBuilder.eraseResponseBody (u1 (u2 b))) :
    HarEntriesBuilder.observablyEqual
      (applySimple (applySimple s rid u1) rid u2)
      (applySimple (applySimple s rid u2) rid u1) := by
  cases hs : s.entryBuildersByRequestId rid with
  | some i =>
    simp only [applySimple, HarEntriesBuilder.getOrCreateForRequestId,
      HarEntriesBuilder.setBuilder, hs]
    refine ⟨rfl, rfl, ?_, by simp, rfl, rfl, rfl⟩
    simp only [listModify_listModify]
    exact map_listModify_eq _ _ _ _ _ hcomm
  | none =>
    simp only [applySimple, HarEntriesBuilder.getOrCreateForRequestId,
      HarEntriesBuilder.setBuilder, hs, eq_self_iff_true, if_true, length_listModify,
      List.length_append, List.length_cons, List.length_nil]
    refine ⟨rfl, rfl, ?_, by simp, rfl, rfl, rfl⟩
    rw [listModify_listModify, listModify_listModify, listModify_append_self,
      listModify_append_self]
    simp only [List.map_append, List.map_cons, List.map_nil]
    rw [hcomm]

end HardyHar

namespace HardyHar

theorem requestHarHeaders_erase (b : HarEntryBuilder) :
    HarEntryBuilder.requestHarHeaders (HarEntryBuilder.eraseResponseBody b) =
      HarEntryBuilder.requestHarHeaders b := rfl

theorem requestCookies_erase (b : HarEntryBuilder) :
    HarEntryBuilder.requestCookies (HarEntryBuilder.eraseResponseBody b) =
      HarEntryBuilder.requestCookies b := rfl

theorem responseHeaders_erase (b : HarEntryBuilder) :
    HarEntryBuilder.responseHeaders (HarEntryBuilder.eraseResponseBody b) =
      HarEntryBuilder.responseHeaders b := rfl

theorem responseCookies_erase (b : HarEntryBuilder) :
    HarEntryBuilder.responseCookies (HarEntryBuilder.eraseResponseBody b) =
      HarEntryBuilder.responseCookies b := rfl

theorem eraseResponseBody_getD_eq {s1 s2 : HarEntriesBuilder}
    (h : s1.allEntryBuilders.map HarEntryBuilder.eraseResponseBody =
      s2.allEntryBuilders.map HarEntryBuilder.eraseResponseBody)
    (i : Nat) (d : HarEntryBuilder) :
    HarEntryBuilder.eraseResponseBody (s1.allEntryBuilders.getD i d) =
      HarEntryBuilder.eraseResponseBody (s2.allEntryBuilders.getD i d) := by
  rw [← getD_map HarEntryBuilder.eraseResponseBody s1.allEntryBuilders i d, h,
    getD_map HarEntryBuilder.eraseResponseBody s2.allEntryBuilders i d]

/-- C7: delivering a transaction's extra-info events (either kind) before
versus after its primary responseReceived event produces observably equal
correlator states (equal in every component, builders up to attached
response bodies); consequently every accumulator — in particular the
transaction's — derives identical final request/response headers and
cookies under the two delivery orders. -/
theorem extraInfo_order_independence :
    (∀ (s : HarEntriesBuilder) (x : RequestWillBeSentExtraInfoEvent)
        (rr : ResponseReceivedEvent) (eb1 eb2 : Option GetResponseBodyResponse),
      x.requestId = rr.requestId →
      HarEntriesBuilder.observablyEqual
        (HarEntriesBuilder.onNetworkEvent
          (HarEntriesBuilder.onNetworkEvent s (.requestWillBeSentExtraInfo x eb1))
          (.responseReceived rr eb2))
        (HarEntriesBuilder.onNetworkEvent
          (HarEntriesBuilder.onNetworkEvent s (.responseReceived rr eb2))
          (.requestWillBeSentExtraInfo x eb1))) ∧
    (∀ (s : HarEntriesBuilder) (x : ResponseReceivedExtraInfoEvent)
        (rr : ResponseReceivedEvent) (eb1 eb2 : Option GetResponseBodyResponse),
      x.requestId = rr.requestId →
      HarEntriesBuilder.observablyEqual
        (HarEntriesBuilder.onNetworkEvent
          (HarEntriesBuilder.onNetworkEvent s (.responseReceivedExtraInfo x eb1))
          (.responseReceived rr eb2))
        (HarEntriesBuilder.onNetworkEvent
          (HarEntriesBuilder.onNetworkEvent s (.responseReceived rr eb2))
          (.responseReceivedExtraInfo x eb1))) ∧
    (∀ (s1 s2 : HarEntriesBuilder) (i : Nat) (d : HarEntryBuilder),
      HarEntriesBuilder.observablyEqual s1 s2 →
      HarEntryBuilder.requestHarHeaders (s1.allEntryBuilders.getD i d) =
        HarEntryBuilder.requestHarHeaders (s2.allEntryBuilders.getD i d) ∧
      HarEntryBuilder.requestCookies (s1.allEntryBuilders.getD i d) =
        HarEntryBuilder.requestCookies (s2.allEntryBuilders.getD i d) ∧
      HarEntryBuilder.responseHeaders (s1.allEntryBuilders.getD i d) =
        HarEntryBuilder.responseHeaders (s2.allEntryBuilders.getD i d) ∧
      HarEntryBuilder.responseCookies (s1.allEntryBuilders.getD i d) =
        HarEntryBuilder.responseCookies (s2.allEntryBuilders.getD i d)) := by
  refine ⟨?_, ?_, ?_⟩
  · intro s x rr eb1 eb2 hrid
    rw [onNetworkEvent_requestWillBeSentExtraInfo, onNetworkEvent_responseReceived,
      onNetworkEvent_requestWillBeSentExtraInfo, onNetworkEvent_responseReceived, hrid]
    exact applySimple_comm s rr.requestId _ _
      (by intro b; cases eb1 <;> cases eb2 <;> rfl)
  · intro s x rr eb1 eb2 hrid
    rw [onNetworkEvent_responseReceivedExtraInfo, onNetworkEvent_responseReceived,
      onNetworkEvent_responseReceivedExtraInfo, onNetworkEvent_responseReceived, hrid]
    exact applySimple_comm s rr.requestId _ _
      (by intro b; cases eb1 <;> cases eb2 <;> rfl)
  · intro s1 s2 i d hobs
    have hb := eraseResponseBody_getD_eq hobs.2.2.1 i d
    refine ⟨?_, ?_, ?_, ?_⟩
    · rw [← requestHarHeaders_erase, hb, requestHarHeaders_erase]
    · rw [← requestCookies_erase, hb, requestCookies_erase]
    · rw [← responseHeaders_erase, hb, responseHeaders_erase]
    · rw [← responseCookies_erase, hb, responseCookies_erase]

/-- Witness for extraInfo_order_independence: concrete swap of the request
extra-info event and the primary response event for identifier X. -/
theorem extraInfo_order_independence_witness :
    HarEntriesBuilder.observablyEqual
      (HarEntriesBuilder.onNetworkEvent
        (HarEntriesBuilder.onNetworkEvent
          (HarEntriesBuilder.processNetworkEvents defaultOptions
            [.requestWillBeSent fixtureRwbsA none none])
          (.requestWillBeSentExtraInfo { requestId := "X" } none))
        (.responseReceived { requestId := "X", response := fixtureFinalResponse } none))
      (HarEntriesBuilder.onNetworkEvent
        (HarEntriesBuilder.onNetworkEvent
          (HarEntriesBuilder.processNetworkEvents defaultOptions
            [.requestWillBeSent fixtureRwbsA none none])
          (.responseReceived { requestId := "X", response := fixtureFinalResponse } none))
        (.requestWillBeSentExtraInfo { requestId := "X" } none)) :=
  extraInfo_order_independence.1
    (HarEntriesBuilder.processNetworkEvents defaultOptions
      [.requestWillBeSent fixtureRwbsA none none])
    { requestId := "X" } { requestId := "X", response := fixtureFinalResponse }
    none none rfl

end HardyHar

namespace HardyHar

/- ---------------------------------------------------------------------
Claim C1 — output entries sorted ascending by _requestTime.
--------------------------------------------------------------------- -/

/-- Key ordering on requestTime-keyed builder pairs is total. -/
instance : IsTotal (Int × HarEntryBuilder) (fun p q => p.1 ≤ q.1) :=
  ⟨fun a b => le_total a.1 b.1⟩

/-- Key ordering on requestTime-keyed builder pairs is transitive. -/
instance : IsTrans (Int × HarEntryBuilder) (fun p q => p.1 ≤ q.1) :=
  ⟨fun _ _ _ hab hbc => le_trans hab hbc⟩

theorem forall₂_mem_right {α β : Type} {R : α → β → Prop} :
    ∀ {l : List α} {l' : List β}, List.Forall₂ R l l' → ∀ b ∈ l', ∃ a ∈ l, R a b := by
  intro l l' h
  induction h with
  | nil => intro b hb; simp at hb
  | cons hR _ ih =>
    intro b hb
    rcases List.mem_cons.mp hb with h1 | h1
    · exact ⟨_, List.mem_cons_self _ _, h1 ▸ hR⟩
    · obtain ⟨a, ha, hab⟩ := ih b h1
      exact ⟨a, List.mem_cons_of_mem _ ha, hab⟩

theorem pairwise_of_forall₂ {α β : Type} {R : α → β → Prop} {P : α → α → Prop}
    {Q : β → β → Prop} :
    ∀ {l : List α} {l' : List β}, List.Forall₂ R l l' → List.Pairwise P l →
      (∀ a b a' b', R a a' → R b b' → P a b → Q a' b') → List.Pairwise Q l' := by
  intro l l' h
  induction h with
  | nil => intro _ _; exact .nil
  | @cons a b l₁ l₂ hR hl ih =>
    intro hp himp
    rw [List.pairwise_cons] at hp
    refine List.Pairwise.cons ?_ (ih hp.2 himp)
    intro b' hb'
    obtain ⟨a', ha', ha'b'⟩ := forall₂_mem_right hl b' hb'
    exact himp a a' b b' hR ha'b' (hp.1 a' ha')

theorem entry_requestTime (tl : TimeLord) (b : HarEntryBuilder) (en : Entry)
    (h : HarEntryBuilder.entry tl b = .ok (some en)) :
    HarEntryBuilder.requestTimeInSeconds b = .ok en._requestTime := by
  unfold HarEntryBuilder.entry at h
  rw [exceptBind_ok_iff] at h
  obtain ⟨valid, hvalid, h⟩ := h
  cases valid with
  | false => simp at h
  | true =>
    simp only [Bool.not_true, Bool.false_eq_true, if_false] at h
    rw [exceptBind_ok_iff] at h; obtain ⟨resp, hresp, h⟩ := h
    rw [exceptBind_ok_iff] at h; obtain ⟨req, hreq, h⟩ := h
    rw [exceptBind_ok_iff] at h; obtain ⟨url, hurl, h⟩ := h
    rw [exceptBind_ok_iff] at h; obtain ⟨rh, hrh, h⟩ := h
    rw [exceptBind_ok_iff] at h; obtain ⟨rc, hrc, h⟩ := h
    rw [exceptBind_ok_iff] at h; obtain ⟨sh, hsh, h⟩ := h
    rw [exceptBind_ok_iff] at h; obtain ⟨sc, hsc, h⟩ := h
    rw [exceptBind_ok_iff] at h; obtain ⟨bs, hbs, h⟩ := h
    rw [exceptBind_ok_iff] at h; obtain ⟨sd, hsd, h⟩ := h
    rw [exceptBind_ok_iff] at h; obtain ⟨rt, hrt, h⟩ := h
    rw [exceptBind_ok_iff] at h; obtain ⟨rid, hrid, h⟩ := h
    simp only [exceptPure_eq_ok, Except.ok.injEq, Option.some.injEq] at h
    subst h
    exact hrt

theorem pairwise_of_length_le_one {α : Type} {P : α → α → Prop} {l : List α}
    (h : l.length ≤ 1) : l.Pairwise P := by
  cases l with
  | nil => exact .nil
  | cons a as =>
    cases as with
    | nil => exact List.pairwise_singleton P a
    | cons b bs => simp at h

theorem sortedBuilders_pairwise (s : HarEntriesBuilder) (sl : List HarEntryBuilder)
    (h : HarEntriesBuilder.getCompletedHarEntryBuildersSortedByRequestTime s = .ok sl) :
    sl.Pairwise (fun b b' => ∀ k k', HarEntryBuilder.requestTimeInSeconds b = .ok k →
      HarEntryBuilder.requestTimeInSeconds b' = .ok k' → k ≤ k') := by
  unfold HarEntriesBuilder.getCompletedHarEntryBuildersSortedByRequestTime at h
  rw [exceptBind_ok_iff] at h
  obtain ⟨valid, _hvalid, h⟩ := h
  by_cases hlen : valid.length ≤ 1
  · rw [if_pos hlen] at h
    simp only [exceptPure_eq_ok, Except.ok.injEq] at h
    subst h
    exact pairwise_of_length_le_one hlen
  · rw [if_neg hlen] at h
    rw [exceptBind_ok_iff] at h
    obtain ⟨keyed, hkeyed, h⟩ := h
    simp only [exceptPure_eq_ok, Except.ok.injEq] at h
    subst h
    have hforall := exceptMap_ok_forall₂ hkeyed
    have hmemfact : ∀ p ∈ keyed, HarEntryBuilder.requestTimeInSeconds p.2 = .ok p.1 := by
      intro p hp
      obtain ⟨b, _hb, hbp⟩ := forall₂_mem_right hforall p hp
      rw [exceptBind_ok_iff] at hbp
      obtain ⟨k, hk, hbp⟩ := hbp
      simp only [exceptPure_eq_ok, Except.ok.injEq] at hbp
      subst hbp
      exact hk
    have hsorted : List.Sorted (fun p q : Int × HarEntryBuilder => p.1 ≤ q.1)
        (keyed.insertionSort (fun p q => p.1 ≤ q.1)) :=
      List.sorted_insertionSort _ _
    have hperm := List.perm_insertionSort
      (fun p q : Int × HarEntryBuilder => p.1 ≤ q.1) keyed
    rw [List.pairwise_map]
    refine hsorted.imp_of_mem ?_
    intro p q hp hq hle k k' hk hk'
    have h1 := hmemfact p (hperm.mem_iff.mp hp)
    have h2 := hmemfact q (hperm.mem_iff.mp hq)
    rw [hk] at h1
    rw [hk'] at h2
    cases h1
    cases h2
    exact hle

/-- C1: for every option set and every input event stream, whenever the
archive entries are produced without fault they are sorted in ascending
order of the derived _requestTime field, regardless of event arrival
order. -/
theorem entries_sorted_by_requestTime :
    ∀ (opts : PopulatedOptions) (events : List NetworkEvent) (es : List Entry),
      harEntriesOfEvents opts events = .ok es →
      List.Sorted (fun e1 e2 : Entry => e1._requestTime ≤ e2._requestTime) es := by
  intro opts events es h
  unfold harEntriesOfEvents HarEntriesBuilder.getCompletedHarEntries at h
  rw [exceptBind_ok_iff] at h
  obtain ⟨sl, hsl, h⟩ := h
  rw [exceptBind_ok_iff] at h
  obtain ⟨el, hel, h⟩ := h
  simp only [exceptPure_eq_ok, Except.ok.injEq] at h
  subst h
  have hpw := sortedBuilders_pairwise _ sl hsl
  have hf2 := exceptMap_ok_forall₂ hel
  have hpel : el.Pairwise (fun o o' => ∀ e e', o = some e → o' = some e' →
      e._requestTime ≤ e'._requestTime) := by
    refine pairwise_of_forall₂ hf2 hpw ?_
    intro b b' o o' hbo hbo' hP e e' heo heo'
    subst heo
    subst heo'
    exact hP _ _ (entry_requestTime _ _ _ hbo) (entry_requestTime _ _ _ hbo')
  refine List.Pairwise.filterMap id ?_ hpel
  intro a a' hP e he e' he'
  rw [Option.mem_def] at he he'
  exact hP e e' (by exact he) (by exact he')

/-- First archive entry of the redirect scenario. -/
def scenarioEntry1 : Entry := {
  requestMethod := "GET"
  requestUrl := "http://a/"
  requestHttpVersion := ""
  requestHeaders := []
  requestCookies := []
  responseStatus := 301
  responseStatusText := ""
  responseHeaders := []
  responseCookies := []
  responseBodySize := -1
  startedDateTime := "991"
  _requestTime := 1
  _requestId := "X" }

/-- Second archive entry of the redirect scenario. -/
def scenarioEntry2 : Entry := {
  requestMethod := "GET"
  requestUrl := "http://b/"
  requestHttpVersion := ""
  requestHeaders := []
  requestCookies := []
  responseStatus := 200
  responseStatusText := ""
  responseHeaders := []
  responseCookies := []
  responseBodySize := -1
  startedDateTime := "992"
  _requestTime := 2
  _requestId := "X" }

/-- Witness for entries_sorted_by_requestTime: the redirect scenario's
produced entries are sorted by _requestTime. -/
theorem entries_sorted_by_requestTime_witness :
    List.Sorted (fun e1 e2 : Entry => e1._requestTime ≤ e2._requestTime)
      [scenarioEntry1, scenarioEntry2] :=
  entries_sorted_by_requestTime defaultOptions redirectScenarioEvents
    [scenarioEntry1, scenarioEntry2] (by decide)

end HardyHar

namespace HardyHar

/- ---------------------------------------------------------------------
Claim C3 — finalize-never-throws and its failure on timing-less responses.
--------------------------------------------------------------------- -/

theorem exceptFilter_isOk {ε α : Type} {p : α → Except ε Bool} :
    ∀ {l : List α}, (∀ a ∈ l, (p a).isOk) → (exceptFilter p l).isOk := by
  intro l
  induction l with
  | nil => intro _; exact isOk_ok _
  | cons a as ih =>
    intro h
    unfold exceptFilter
    rw [exceptBind_isOk_iff]
    obtain ⟨v, hv⟩ := isOk_iff_exists_ok.mp (h a (List.mem_cons_self _ _))
    refine ⟨v, hv, ?_⟩
    rw [exceptBind_isOk_iff]
    obtain ⟨rest, hrest⟩ := isOk_iff_exists_ok.mp
      (ih (fun x hx => h x (List.mem_cons_of_mem _ hx)))
    exact ⟨rest, hrest, by simp⟩

theorem exceptMap_isOk {ε α β : Type} {f : α → Except ε β} :
    ∀ {l : List α}, (∀ a ∈ l, (f a).isOk) → (exceptMap f l).isOk := by
  intro l
  induction l with
  | nil => intro _; exact isOk_ok _
  | cons a as ih =>
    intro h
    unfold exceptMap
    rw [exceptBind_isOk_iff]
    obtain ⟨v, hv⟩ := isOk_iff_exists_ok.mp (h a (List.mem_cons_self _ _))
    refine ⟨v, hv, ?_⟩
    rw [exceptBind_isOk_iff]
    obtain ⟨rest, hrest⟩ := isOk_iff_exists_ok.mp
      (ih (fun x hx => h x (List.mem_cons_of_mem _ hx)))
    exact ⟨rest, hrest, by simp⟩

theorem noDouble_of_response_ok {b : HarEntryBuilder} {r? : Option NetworkResponse}
    (h : HarEntryBuilder._response b = .ok r?) :
    (b.responseReceivedEvent.isSome && b.redirectResponse.isSome) = false := by
  unfold HarEntryBuilder._response at h
  by_cases hc : (b.responseReceivedEvent.isSome && b.redirectResponse.isSome) = true
  · rw [if_pos hc] at h
    cases h
  · cases h2 : (b.responseReceivedEvent.isSome && b.redirectResponse.isSome) with
    | false => rfl
    | true => exact absurd h2 hc

theorem response_value_of_noDouble {b : HarEntryBuilder}
    (hnd : (b.responseReceivedEvent.isSome && b.redirectResponse.isSome) = false) :
    HarEntryBuilder._response b = .ok (match b.responseReceivedEvent with
      | some ev => some ev.response
      | none => b.redirectResponse) := by
  unfold HarEntryBuilder._response
  rw [if_neg (by simp [hnd])]

theorem requestWillBeSentEvent_ok {b : HarEntryBuilder} {e : RequestWillBeSentEvent}
    (hreq : b._requestWillBeSentEvent = some e) :
    HarEntryBuilder.requestWillBeSentEvent b = .ok e := by
  simp [HarEntryBuilder.requestWillBeSentEvent, hreq]

theorem request_ok {b : HarEntryBuilder} {e : RequestWillBeSentEvent}
    (hreq : b._requestWillBeSentEvent = some e) :
    HarEntryBuilder.request b = .ok e.request := by
  simp [HarEntryBuilder.request, requestWillBeSentEvent_ok hreq]

theorem isValid_isOk (b : HarEntryBuilder)
    (hnd : (b.responseReceivedEvent.isSome && b.redirectResponse.isSome) = false) :
    (HarEntryBuilder.isValidForInclusionInHarArchive b).isOk := by
  unfold HarEntryBuilder.isValidForInclusionInHarArchive
  rw [exceptBind_isOk_iff]
  refine ⟨_, response_value_of_noDouble hnd, ?_⟩
  by_cases h1 : (b._requestWillBeSentEvent.isNone || (match b.responseReceivedEvent with
      | some ev => some ev.response
      | none => b.redirectResponse : Option NetworkResponse).isNone) = true
  · rw [if_pos h1]
    exact isOk_ok _
  · rw [if_neg h1]
    have hreqSome : b._requestWillBeSentEvent.isSome := by
      cases hq : b._requestWillBeSentEvent with
      | none => exact absurd (by simp [hq]) h1
      | some e => rfl
    obtain ⟨e, he⟩ := Option.isSome_iff_exists.mp hreqSome
    have hrespSome : (match b.responseReceivedEvent with
        | some ev => some ev.response
        | none => b.redirectResponse : Option NetworkResponse).isSome := by
      cases hq : (match b.responseReceivedEvent with
          | some ev => some ev.response
          | none => b.redirectResponse : Option NetworkResponse) with
      | none => exact absurd (by simp [hq]) h1
      | some r => rfl
    obtain ⟨resp, hrv⟩ := Option.isSome_iff_exists.mp hrespSome
    have hresp : HarEntryBuilder._response b = .ok (some resp) := by
      rw [response_value_of_noDouble hnd, hrv]
    cases hcan : (match b.loadingFailedEvent with
      | some lf => (lf.canceled.getD false) && decide (lf.errorText ≠ "net::ERR_ABORTED")
      | none => false) with
    | true => simp [hcan]
    | false =>
      simp only [hcan, Bool.false_eq_true, if_false]
      rw [exceptBind_isOk_iff]
      refine ⟨(strStartsWith e.request.url "http:" || strStartsWith e.request.url "https:" ||
          ((strStartsWith e.request.url "ws:" || strStartsWith e.request.url "wss:") &&
            !b.options.mimicChromeHar)),
        by simp [HarEntryBuilder.isSupportedProtocol, request_ok he], ?_⟩
      by_cases hsup : (strStartsWith e.request.url "http:" ||
          strStartsWith e.request.url "https:" ||
          ((strStartsWith e.request.url "ws:" || strStartsWith e.request.url "wss:") &&
            !b.options.mimicChromeHar)) = true
      · rw [if_neg (by simp [hsup])]
        by_cases hinc : b.options.includeResourcesFromDiskCache = true
        · rw [if_neg (by simp [hinc])]
          exact isOk_ok _
        · rw [if_pos (by simp only [Bool.not_eq_true] at hinc; simp [hinc])]
          rw [exceptBind_isOk_iff]
          refine ⟨resp, response_ok hresp, ?_⟩
          rw [exceptBind_isOk_iff]
          refine ⟨decide (0 < ((((some resp : Option NetworkResponse).bind
              (·.timing)).map (·.pushStart)).getD 0)),
            by simp [HarEntryBuilder.wasHttp2Push, hresp], ?_⟩
          exact isOk_ok _
      · rw [if_pos (by simp only [Bool.not_eq_true] at hsup ⊢; simp [hsup])]
        exact isOk_ok _

end HardyHar

namespace HardyHar

theorem isValid_eq_true_implies (b : HarEntryBuilder)
    (h : HarEntryBuilder.isValidForInclusionInHarArchive b = .ok true) :
    (∃ e, b._requestWillBeSentEvent = some e) ∧
    (∃ resp, HarEntryBuilder._response b = .ok (some resp)) := by
  unfold HarEntryBuilder.isValidForInclusionInHarArchive at h
  rw [exceptBind_ok_iff] at h
  obtain ⟨resp?, hresp, h⟩ := h
  by_cases h1 : (b._requestWillBeSentEvent.isNone || resp?.isNone) = true
  · rw [if_pos h1] at h
    cases h
  · have hreqSome : b._requestWillBeSentEvent.isSome := by
      cases hq : b._requestWillBeSentEvent with
      | none => exact absurd (by simp [hq]) h1
      | some e => rfl
    have hrespSome : resp?.isSome := by
      cases hq : resp? with
      | none => exact absurd (by simp [hq]) h1
      | some r => rfl
    obtain ⟨e, he⟩ := Option.isSome_iff_exists.mp hreqSome
    obtain ⟨r, hr⟩ := Option.isSome_iff_exists.mp hrespSome
    exact ⟨⟨e, he⟩, ⟨r, hr ▸ hresp⟩⟩

section GetterOk

variable {b : HarEntryBuilder} {e : RequestWillBeSentEvent} {resp : NetworkResponse}

theorem requestUrl_isOk (hreq : b._requestWillBeSentEvent = some e) :
    (HarEntryBuilder.requestUrl b).isOk := by
  simp [HarEntryBuilder.requestUrl, request_ok hreq]

theorem requestHeaders_isOk (hreq : b._requestWillBeSentEvent = some e)
    (hresp : HarEntryBuilder._response b = .ok (some resp)) :
    (HarEntryBuilder.requestHeaders b).isOk := by
  unfold HarEntryBuilder.requestHeaders
  cases hm : b.options.mimicChromeHar with
  | false => simp [hm, response_ok hresp, request_ok hreq]
  | true =>
    cases hrh : resp.requestHeaders with
    | some rh => simp [response_ok hresp, hrh]
    | none => simp [response_ok hresp, hrh, requestWillBeSentEvent_ok hreq]

theorem requestHarHeaders_isOk (hreq : b._requestWillBeSentEvent = some e)
    (hresp : HarEntryBuilder._response b = .ok (some resp)) :
    (HarEntryBuilder.requestHarHeaders b).isOk := by
  unfold HarEntryBuilder.requestHarHeaders
  rw [exceptBind_isOk_iff]
  obtain ⟨v, hv⟩ := isOk_iff_exists_ok.mp (requestHeaders_isOk hreq hresp)
  exact ⟨v, hv, by simp⟩

theorem requestCookies_isOk (hreq : b._requestWillBeSentEvent = some e)
    (hresp : HarEntryBuilder._response b = .ok (some resp)) :
    (HarEntryBuilder.requestCookies b).isOk := by
  unfold HarEntryBuilder.requestCookies HarEntryBuilder.requestCookieHeader
  rw [exceptBind_isOk_iff]
  obtain ⟨v, hv⟩ := isOk_iff_exists_ok.mp (requestHeaders_isOk hreq hresp)
  refine ⟨getHeaderValue v "Cookie", by simp [hv], ?_⟩
  simp

theorem networkResponseHeadersObj_isOk
    (hresp : HarEntryBuilder._response b = .ok (some resp)) :
    (HarEntryBuilder.networkResponseHeadersObj b).isOk := by
  unfold HarEntryBuilder.networkResponseHeadersObj
  cases hx : b.responseReceivedExtraInfoEvent with
  | some x => simp
  | none => simp [response_ok hresp]

theorem responseHeaders_isOk (hresp : HarEntryBuilder._response b = .ok (some resp)) :
    (HarEntryBuilder.responseHeaders b).isOk := by
  unfold HarEntryBuilder.responseHeaders
  rw [exceptBind_isOk_iff]
  obtain ⟨v, hv⟩ := isOk_iff_exists_ok.mp (networkResponseHeadersObj_isOk hresp)
  exact ⟨v, hv, by simp⟩

theorem getResponseHeader_isOk (hresp : HarEntryBuilder._response b = .ok (some resp))
    (nm : String) : (HarEntryBuilder.getResponseHeader b nm).isOk := by
  unfold HarEntryBuilder.getResponseHeader
  rw [exceptBind_isOk_iff]
  obtain ⟨v, hv⟩ := isOk_iff_exists_ok.mp (responseHeaders_isOk hresp)
  exact ⟨v, hv, by simp⟩

theorem responseBodySize_isOk (hresp : HarEntryBuilder._response b = .ok (some resp)) :
    (HarEntryBuilder.responseBodySize b).isOk := by
  unfold HarEntryBuilder.responseBodySize
  cases hb : HarEntryBuilder.responseBody b with
  | some body => simp
  | none =>
    rw [exceptBind_isOk_iff]
    refine ⟨resp, response_ok hresp, ?_⟩
    by_cases hs : (100 ≤ resp.status ∧ resp.status < 200) ∨ resp.status = 204 ∨
        resp.status = 304
    · simp [hs]
    · rw [if_neg hs, exceptBind_isOk_iff]
      obtain ⟨v, hv⟩ := isOk_iff_exists_ok.mp (getResponseHeader_isOk hresp "Content-Length")
      refine ⟨v, hv, ?_⟩
      cases hcl : (Option.map (fun x => x.value) v).bind jsParseInt <;> simp [hcl]

theorem responseCookeHeader_isOk (hresp : HarEntryBuilder._response b = .ok (some resp)) :
    (HarEntryBuilder.responseCookeHeader b).isOk := by
  unfold HarEntryBuilder.responseCookeHeader
  rw [exceptBind_isOk_iff]
  obtain ⟨v, hv⟩ := isOk_iff_exists_ok.mp (networkResponseHeadersObj_isOk hresp)
  refine ⟨v, hv, ?_⟩
  cases hm : b.options.mimicChromeHar with
  | false => simp [hm]
  | true => simp [hm, response_ok hresp]

theorem responseCookies_isOk (hresp : HarEntryBuilder._response b = .ok (some resp)) :
    (HarEntryBuilder.responseCookies b).isOk := by
  unfold HarEntryBuilder.responseCookies
  rw [exceptBind_isOk_iff]
  obtain ⟨v, hv⟩ := isOk_iff_exists_ok.mp (responseCookeHeader_isOk hresp)
  refine ⟨v, hv, ?_⟩
  cases v <;> simp

theorem startedDateTime_isOk (tl : TimeLord) (hreq : b._requestWillBeSentEvent = some e)
    (hresp : HarEntryBuilder._response b = .ok (some resp)) :
    (HarEntryBuilder.startedDateTime tl b).isOk := by
  have hmono : (HarEntryBuilder.requestStartMonotonicInput b).isOk := by
    unfold HarEntryBuilder.requestStartMonotonicInput
    rw [exceptBind_isOk_iff]
    refine ⟨resp, response_ok hresp, ?_⟩
    cases ht : resp.timing with
    | some t => simp
    | none => simp [HarEntryBuilder.timestamp, requestWillBeSentEvent_ok hreq]
  obtain ⟨v, hv⟩ := isOk_iff_exists_ok.mp hmono
  unfold HarEntryBuilder.startedDateTime
  rw [exceptBind_isOk_iff]
  refine ⟨tl.getApproximateWallTimeInSecondsFromUnixEpochFromMonotonicallyIncreasingTimestamp v,
    ?_, by simp⟩
  unfold HarEntryBuilder.requestStartTimeInSecondsFromUnixEpoch
  rw [exceptBind_ok_iff]
  exact ⟨v, hv, rfl⟩

theorem requestId_isOk (hreq : b._requestWillBeSentEvent = some e) :
    (HarEntryBuilder.requestId b).isOk := by
  simp [HarEntryBuilder.requestId, requestWillBeSentEvent_ok hreq]

end GetterOk

theorem entry_isOk (tl : TimeLord) (b : HarEntryBuilder)
    (e : RequestWillBeSentEvent) (resp : NetworkResponse)
    (hreq : b._requestWillBeSentEvent = some e)
    (hresp : HarEntryBuilder._response b = .ok (some resp))
    (ht : (HarEntryBuilder.requestTimeInSeconds b).isOk) :
    (HarEntryBuilder.entry tl b).isOk := by
  unfold HarEntryBuilder.entry
  rw [exceptBind_isOk_iff]
  obtain ⟨valid, hvalid⟩ := isOk_iff_exists_ok.mp (isValid_isOk b (noDouble_of_response_ok hresp))
  refine ⟨valid, hvalid, ?_⟩
  cases valid with
  | false => simp
  | true =>
    simp only [Bool.not_true, Bool.false_eq_true, if_false]
    rw [exceptBind_isOk_iff]
    refine ⟨resp, response_ok hresp, ?_⟩
    rw [exceptBind_isOk_iff]
    refine ⟨e.request, request_ok hreq, ?_⟩
    rw [exceptBind_isOk_iff]
    obtain ⟨v1, hv1⟩ := isOk_iff_exists_ok.mp (requestUrl_isOk hreq)
    refine ⟨v1, hv1, ?_⟩
    rw [exceptBind_isOk_iff]
    obtain ⟨v2, hv2⟩ := isOk_iff_exists_ok.mp (requestHarHeaders_isOk hreq hresp)
    refine ⟨v2, hv2, ?_⟩
    rw [exceptBind_isOk_iff]
    obtain ⟨v3, hv3⟩ := isOk_iff_exists_ok.mp (requestCookies_isOk hreq hresp)
    refine ⟨v3, hv3, ?_⟩
    rw [exceptBind_isOk_iff]
    obtain ⟨v4, hv4⟩ := isOk_iff_exists_ok.mp (responseHeaders_isOk hresp)
    refine ⟨v4, hv4, ?_⟩
    rw [exceptBind_isOk_iff]
    obtain ⟨v5, hv5⟩ := isOk_iff_exists_ok.mp (responseCookies_isOk hresp)
    refine ⟨v5, hv5, ?_⟩
    rw [exceptBind_isOk_iff]
    obtain ⟨v6, hv6⟩ := isOk_iff_exists_ok.mp (responseBodySize_isOk hresp)
    refine ⟨v6, hv6, ?_⟩
    rw [exceptBind_isOk_iff]
    obtain ⟨v7, hv7⟩ := isOk_iff_exists_ok.mp (startedDateTime_isOk tl hreq hresp)
    refine ⟨v7, hv7, ?_⟩
    rw [exceptBind_isOk_iff]
    obtain ⟨v8, hv8⟩ := isOk_iff_exists_ok.mp ht
    refine ⟨v8, hv8, ?_⟩
    rw [exceptBind_isOk_iff]
    obtain ⟨v9, hv9⟩ := isOk_iff_exists_ok.mp (requestId_isOk hreq)
    exact ⟨v9, hv9, by simp⟩

end HardyHar

namespace HardyHar

theorem mem_sortedBuilders {s : HarEntriesBuilder} {l : List HarEntryBuilder}
    (hl : HarEntriesBuilder.getCompletedHarEntryBuildersSortedByRequestTime s = .ok l) :
    ∀ b ∈ l, b ∈ s.allEntryBuilders ∧
      HarEntryBuilder.isValidForInclusionInHarArchive b = .ok true := by
  unfold HarEntriesBuilder.getCompletedHarEntryBuildersSortedByRequestTime at hl
  rw [exceptBind_ok_iff] at hl
  obtain ⟨valid, hvalid, hl⟩ := hl
  have hvalid' : exceptFilter HarEntryBuilder.isValidForInclusionInHarArchive
      s.allEntryBuilders = .ok valid := hvalid
  have hmem := mem_of_exceptFilter_ok hvalid'
  by_cases hlen : valid.length ≤ 1
  · rw [if_pos hlen] at hl
    simp only [exceptPure_eq_ok, Except.ok.injEq] at hl
    subst hl
    exact hmem
  · rw [if_neg hlen, exceptBind_ok_iff] at hl
    obtain ⟨keyed, hkeyed, hl⟩ := hl
    simp only [exceptPure_eq_ok, Except.ok.injEq] at hl
    subst hl
    intro b hb
    rw [List.mem_map] at hb
    obtain ⟨p, hp, hpb⟩ := hb
    have hp' : p ∈ keyed := (List.perm_insertionSort _ keyed).mem_iff.mp hp
    obtain ⟨a, ha, hr⟩ := forall₂_mem_right (exceptMap_ok_forall₂ hkeyed) p hp'
    rw [exceptBind_ok_iff] at hr
    obtain ⟨k, hk, hpa⟩ := hr
    simp only [exceptPure_eq_ok, Except.ok.injEq] at hpa
    subst hpa
    subst hpb
    exact hmem a ha

theorem getCompletedHarEntries_isOk (s : HarEntriesBuilder)
    (h : ∀ b ∈ s.allEntryBuilders,
        (b.responseReceivedEvent.isSome && b.redirectResponse.isSome) = false ∧
        (HarEntryBuilder.isValidForInclusionInHarArchive b = .ok true →
          (HarEntryBuilder.requestTimeInSeconds b).isOk)) :
    (HarEntriesBuilder.getCompletedHarEntries s).isOk := by
  have hvalidOk : (HarEntriesBuilder.getCompletedHarEntryBuilders s).isOk :=
    exceptFilter_isOk (fun b hb => isValid_isOk b (h b hb).1)
  have hsortOk :
      (HarEntriesBuilder.getCompletedHarEntryBuildersSortedByRequestTime s).isOk := by
    unfold HarEntriesBuilder.getCompletedHarEntryBuildersSortedByRequestTime
    rw [exceptBind_isOk_iff]
    obtain ⟨valid, hvalid⟩ := isOk_iff_exists_ok.mp hvalidOk
    refine ⟨valid, hvalid, ?_⟩
    by_cases hlen : valid.length ≤ 1
    · rw [if_pos hlen]
      exact isOk_ok _
    · rw [if_neg hlen, exceptBind_isOk_iff]
      have hvalid' : exceptFilter HarEntryBuilder.isValidForInclusionInHarArchive
          s.allEntryBuilders = .ok valid := hvalid
      have hkeyed : (exceptMap
          (fun b => do pure ((← HarEntryBuilder.requestTimeInSeconds b), b)) valid).isOk := by
        apply exceptMap_isOk
        intro a ha
        have hmem := mem_of_exceptFilter_ok hvalid' a ha
        obtain ⟨k, hk⟩ := isOk_iff_exists_ok.mp ((h a hmem.1).2 hmem.2)
        simp [hk]
      obtain ⟨keyed, hkd⟩ := isOk_iff_exists_ok.mp hkeyed
      exact ⟨keyed, hkd, isOk_ok _⟩
  unfold HarEntriesBuilder.getCompletedHarEntries
  rw [exceptBind_isOk_iff]
  obtain ⟨sl, hsl⟩ := isOk_iff_exists_ok.mp hsortOk
  refine ⟨sl, hsl, ?_⟩
  rw [exceptBind_isOk_iff]
  have hmapOk : (exceptMap (HarEntryBuilder.entry s.timelord) sl).isOk := by
    apply exceptMap_isOk
    intro b hb
    have hm := mem_sortedBuilders hsl b hb
    obtain ⟨⟨e, he⟩, ⟨resp, hresp⟩⟩ := isValid_eq_true_implies b hm.2
    exact entry_isOk s.timelord b e resp he hresp ((h b hm.1).2 hm.2)
  obtain ⟨hes, hhes⟩ := isOk_iff_exists_ok.mp hmapOk
  exact ⟨hes, hhes, isOk_ok _⟩

/-- An event stream whose transaction is fully eligible for inclusion but
whose response carries no timing object (timing is optional in the
protocol): one initiating event, then a primary response without timing. -/
def timingLessScenarioEvents : List NetworkEvent :=
  [.requestWillBeSent fixtureRwbsA none none,
   .responseReceived { requestId := "X", response := { status := 200 } } none]

/-- C3 (counterexample): requesting the finished archive CAN raise the
requestTimeInSeconds contract violation on a well-formed input stream: a
transaction with an initiating event and a timing-less primary response
passes the inclusion-eligibility filter (which never inspects timing), yet
the entry derivation reached from the public entry point then evaluates
requestTimeInSeconds, which throws "timing not set". -/
theorem finalize_throws_on_timingless_response :
    harEntriesOfEvents defaultOptions timingLessScenarioEvents = .error "timing not set" := by
  decide

/-- C3 (amended): the finalize path raises no contract-violation fault
provided that (i) no accumulated transaction holds both a primary response
event and a redirect response (so the response accessor cannot fault), and
(ii) every accumulator that passes the inclusion-eligibility filter has a
succeeding requestTimeInSeconds (its response carries a timing object).
Under exactly these two conditions — which the eligibility filter itself
does NOT guarantee — every accessor that fails loudly on absent data is
unreachable from the public entry points, and producing the archive's
entries succeeds. -/
theorem finalize_no_throw_amended (opts : PopulatedOptions) (events : List NetworkEvent)
    (h : ∀ b ∈ (HarEntriesBuilder.processNetworkEvents opts events).allEntryBuilders,
        (b.responseReceivedEvent.isSome && b.redirectResponse.isSome) = false ∧
        (HarEntryBuilder.isValidForInclusionInHarArchive b = .ok true →
          (HarEntryBuilder.requestTimeInSeconds b).isOk)) :
    (harEntriesOfEvents opts events).isOk := by
  unfold harEntriesOfEvents
  exact getCompletedHarEntries_isOk _ h

/-- C3 witness: the redirect scenario satisfies both amended hypotheses and
its archive derivation succeeds. -/
theorem finalize_no_throw_amended_witness :
    (harEntriesOfEvents defaultOptions redirectScenarioEvents).isOk :=
  finalize_no_throw_amended defaultOptions redirectScenarioEvents (by decide)

end HardyHar
